import Mathlib

/-!
Verification development for the `smol-mlua` runtime library.

The Rust sources are shallowly embedded below:
* `queue.rs`  — `ThreadQueue`, `ThreadWithArgs` (registry-backed FIFO queue
  with a signal channel);
* `runtime.rs` — `Runtime::new`, `Runtime::run` (the scheduler main loop,
  metadata attachment, status cell);
* `traits.rs` — `IntoLuaThread` conversions and the `LuaRuntimeExt`
  extension surface (`push_thread_front`, `push_thread_back`, `spawn`,
  `spawn_local`).

External library behaviour (the `mlua` interpreter registry, channels,
executors) is modelled explicitly: registry insertion is fallible (an
optional capacity models out-of-memory), channels are counters, the local
executor is a list of pending tasks. Panics (`expect`, `unwrap`, `assert!`)
are modelled by the `PanicOr` result type so that aborting and returning an
error are distinguishable.
-/

namespace SmolMlua

/-! ### Guest values (mlua model) -/

/-- Status of a guest coroutine, mirroring `mlua::ThreadStatus`. -/
inductive LuaThreadStatus
  | resumable
  | running
  | finished
  | errored
  deriving DecidableEq, Repr

/-- A guest coroutine: an identity plus its current status. -/
structure LuaThread where
  tid : Nat
  tstatus : LuaThreadStatus
  deriving DecidableEq, Repr

/-- A multi-value argument tuple (`LuaMultiValue`); payloads are opaque. -/
abbrev LuaMultiValue := List Nat

/-- A value stored in the interpreter registry: either a coroutine or an
argument vector (`queue.rs` stores exactly these two shapes). -/
inductive RegVal
  | threadVal (t : LuaThread)
  | argsVal (a : LuaMultiValue)
  deriving DecidableEq, Repr

/-- Result of running code that may panic (`expect` / `unwrap` / `assert!`).
A panic aborts; it is distinct from returning an error value. -/
inductive PanicOr (α : Type)
  | panicked (msg : String)
  | ok (val : α)
  deriving DecidableEq, Repr

/-- Whether a computation panicked. -/
def PanicOr.isPanicked {α : Type} : PanicOr α → Bool
  | .panicked _ => true
  | .ok _ => false

/-- Errors surfaced through `LuaResult`, mirroring `mlua::Error`. -/
inductive LuaError
  | outOfMemory
  | runtimeFailure (msg : String)
  deriving DecidableEq, Repr

/-- `LuaResult<T>` from mlua. -/
abbrev LuaResult (α : Type) := Except LuaError α

/-- Equality of fallible results is decidable (used to evaluate the
embedded operations on concrete inputs). -/
instance {ε α : Type} [DecidableEq ε] [DecidableEq α] : DecidableEq (Except ε α)
  | .error e1, .error e2 =>
    if h : e1 = e2 then .isTrue (by rw [h]) else .isFalse (by intro hc; cases hc; exact h rfl)
  | .error _, .ok _ => .isFalse (by intro hc; cases hc)
  | .ok _, .error _ => .isFalse (by intro hc; cases hc)
  | .ok a1, .ok a2 =>
    if h : a1 = a2 then .isTrue (by rw [h]) else .isFalse (by intro hc; cases hc; exact h rfl)

/-! ### The interpreter registry (mlua model) -/

abbrev LuaRegistryKey := Nat

/-- The registry is an association list from keys to stored values. -/
abbrev Registry := List (LuaRegistryKey × RegVal)

/-- First-match lookup in the registry. -/
def lookupKey (k : LuaRegistryKey) : Registry → Option RegVal
  | [] => none
  | (k2, v) :: rest => if k2 = k then some v else lookupKey k rest

/-- Remove the first entry with the given key from the registry. -/
def eraseKey (k : LuaRegistryKey) : Registry → Registry
  | [] => []
  | (k2, v) :: rest => if k2 = k then rest else (k2, v) :: eraseKey k rest

/-- The interpreter state: the registry, a fresh-key counter, a fresh
coroutine-id counter, and an optional allocation capacity; when the registry
reaches the capacity, further allocations fail with out-of-memory. -/
structure Lua where
  registry : Registry
  nextKey : LuaRegistryKey
  nextThreadId : Nat
  capacity : Option Nat
  deriving DecidableEq, Repr

/-- Whether the next allocation fails (models out-of-memory). -/
def Lua.atCapacity (lua : Lua) : Bool :=
  match lua.capacity with
  | none => false
  | some c => decide (c ≤ lua.registry.length)

/-- `Lua::create_registry_value`: store a value, returning a fresh key;
fails (`None`) when out of memory. -/
def Lua.createRegistryValue (lua : Lua) (v : RegVal) : Option (Lua × LuaRegistryKey) :=
  if lua.atCapacity then none
  else some ({ lua with
                registry := lua.registry ++ [(lua.nextKey, v)],
                nextKey := lua.nextKey + 1 },
             lua.nextKey)

/-- `Lua::registry_value`: look a stored value up by key. -/
def Lua.registryValue (lua : Lua) (k : LuaRegistryKey) : Option RegVal :=
  lookupKey k lua.registry

/-- `Lua::remove_registry_value`: remove a stored value; fails when the key
is not present. -/
def Lua.removeRegistryValue (lua : Lua) (k : LuaRegistryKey) : Option Lua :=
  match lookupKey k lua.registry with
  | none => none
  | some _ => some { lua with registry := eraseKey k lua.registry }

/-- `Lua::create_thread`: wrap a function into a fresh resumable coroutine;
fails with out-of-memory at capacity. -/
def Lua.createThread (lua : Lua) : LuaResult (Lua × LuaThread) :=
  if lua.atCapacity then .error .outOfMemory
  else .ok ({ lua with nextThreadId := lua.nextThreadId + 1 },
            { tid := lua.nextThreadId, tstatus := .resumable })

/-! ### `queue.rs`: `ThreadWithArgs` -/

/-- The panic message of `queue.rs` (`const ERR_OOM`). -/
def ERR_OOM : String := "out of memory"

/-- `ThreadWithArgs` (`queue.rs` lines 76-80): a queued coroutine and its
arguments, stored by registry key. -/
structure ThreadWithArgs where
  key_thread : LuaRegistryKey
  key_args : LuaRegistryKey
  deriving DecidableEq, Repr

/-- `ThreadWithArgs::new` (`queue.rs` lines 83-93): store the coroutine and
its arguments in the registry. Both insertions use `.expect(ERR_OOM)`, so a
failed insertion panics. -/
def ThreadWithArgs.new (lua : Lua) (thread : LuaThread) (args : LuaMultiValue) :
    PanicOr (Lua × ThreadWithArgs) :=
  match lua.createRegistryValue (.threadVal thread) with
  | none => .panicked ERR_OOM
  | some (lua1, kThread) =>
    match lua1.createRegistryValue (.argsVal args) with
    | none => .panicked ERR_OOM
    | some (lua2, kArgs) => .ok (lua2, { key_thread := kThread, key_args := kArgs })

/-- `ThreadWithArgs::into_inner` (`queue.rs` lines 95-105): read both stored
values back, remove both registry keys, and return the pair. Every fallible
step is `.unwrap()`ed, hence panics on failure. -/
def ThreadWithArgs.intoInner (self : ThreadWithArgs) (lua : Lua) :
    PanicOr (Lua × LuaThread × LuaMultiValue) :=
  match lua.registryValue self.key_thread with
  | none => .panicked "unwrap on a None value"
  | some (.argsVal _) => .panicked "unwrap on a None value"
  | some (.threadVal thread) =>
    match lua.registryValue self.key_args with
    | none => .panicked "unwrap on a None value"
    | some (.threadVal _) => .panicked "unwrap on a None value"
    | some (.argsVal argsv) =>
      match lua.removeRegistryValue self.key_thread with
      | none => .panicked "unwrap on a None value"
      | some lua1 =>
        match lua1.removeRegistryValue self.key_args with
        | none => .panicked "unwrap on a None value"
        | some lua2 => .ok (lua2, thread, argsv)

/-! ### `traits.rs`: `IntoLuaThread` -/

/-- Inputs accepted by `push`: an existing coroutine, a guest function, or a
loadable chunk (`traits.rs` lines 35-51). -/
inductive ThreadInput
  | ofThread (t : LuaThread)
  | ofFunction
  | ofChunk
  deriving DecidableEq, Repr

/-- `IntoLuaThread::into_lua_thread`: a coroutine passes through unchanged;
a function is wrapped by `create_thread`; a chunk is compiled
(`into_function()?`, fallible) and then wrapped. -/
def intoLuaThread (input : ThreadInput) (lua : Lua) : LuaResult (Lua × LuaThread) :=
  match input with
  | .ofThread t => .ok (lua, t)
  | .ofFunction => lua.createThread
  | .ofChunk => if lua.atCapacity then .error .outOfMemory else lua.createThread

/-! ### `queue.rs`: `ThreadQueue` -/

/-- `ThreadQueue` (`queue.rs` lines 17-22): a FIFO container of stored items
plus an unbounded signal channel (only the count of undelivered signals
matters). -/
structure ThreadQueue where
  queue : List ThreadWithArgs
  signals : Nat
  deriving DecidableEq, Repr

/-- `ThreadQueue::new`. -/
def ThreadQueue.new : ThreadQueue := { queue := [], signals := 0 }

/-- `ThreadQueue::push` (`queue.rs` lines 35-49): convert the input to a
coroutine (conversion failures are returned as errors), store it with
`ThreadWithArgs::new` (which panics on registry-insertion failure), append
it to the container, then send one signal. -/
def ThreadQueue.push (self : ThreadQueue) (lua : Lua) (input : ThreadInput)
    (args : LuaMultiValue) : PanicOr (LuaResult (Lua × ThreadQueue)) :=
  match intoLuaThread input lua with
  | .error e => .ok (.error e)
  | .ok (lua1, thread) =>
    match ThreadWithArgs.new lua1 thread args with
    | .panicked m => .panicked m
    | .ok (lua2, stored) =>
      .ok (.ok (lua2, { queue := self.queue ++ [stored], signals := self.signals + 1 }))

/-- Materialise a list of stored items in order (`queue.rs` line 58: the
drain iterator maps `into_inner` over the container contents; the scheduler
consumes the iterator fully). -/
def drainAll (lua : Lua) : List ThreadWithArgs → PanicOr (Lua × List (LuaThread × LuaMultiValue))
  | [] => .ok (lua, [])
  | stored :: rest =>
    match stored.intoInner lua with
    | .panicked m => .panicked m
    | .ok (lua1, thread, args) =>
      match drainAll lua1 rest with
      | .panicked m => .panicked m
      | .ok (lua2, items) => .ok (lua2, (thread, args) :: items)

/-- `ThreadQueue::drain` (`queue.rs` lines 51-59): consume every currently
queued item, in order, materialising each one; the signal channel is not
touched. -/
def ThreadQueue.drain (self : ThreadQueue) (lua : Lua) :
    PanicOr (Lua × List (LuaThread × LuaMultiValue) × ThreadQueue) :=
  match drainAll lua self.queue with
  | .panicked m => .panicked m
  | .ok (lua1, items) => .ok (lua1, items, { self with queue := [] })

/-- `ThreadQueue::listen` (`queue.rs` lines 61-70) resolves exactly when at
least one signal is pending. -/
def ThreadQueue.listenReady (self : ThreadQueue) : Bool := decide (0 < self.signals)

/-- The effect of `ThreadQueue::listen` once it resolves: one `recv`
followed by draining every pending signal, leaving the channel empty. -/
def ThreadQueue.listenConsume (self : ThreadQueue) : ThreadQueue := { self with signals := 0 }

/-! ### `runtime.rs`: the scheduler state -/

/-- Modelled from the spec: `FuturesQueue` (declared in `lib.rs`, used by
`runtime.rs` and `traits.rs`, but its source is not under `src/`). Per §4.2
of the spec it has a contract identical to the thread queue — unbounded FIFO
container with push-then-signal discipline and coalescing listen — but
carries thread-local futures (opaque ids here) and produces no handles. -/
structure FuturesQueue where
  queue : List Nat
  signals : Nat
  deriving DecidableEq, Repr

/-- An empty futures queue. -/
def FuturesQueue.new : FuturesQueue := { queue := [], signals := 0 }

/-- Modelled from the spec: `FuturesQueue::push_item` — append, then signal. -/
def FuturesQueue.pushItem (self : FuturesQueue) (fid : Nat) : FuturesQueue :=
  { queue := self.queue ++ [fid], signals := self.signals + 1 }

/-- Modelled from the spec: `FuturesQueue::drain_items` — yield every queued
future in FIFO order, leaving the container empty. -/
def FuturesQueue.drainItems (self : FuturesQueue) : List Nat × FuturesQueue :=
  (self.queue, { self with queue := [] })

/-- Modelled from the spec: the futures-queue listen resolves exactly when a
signal is pending. -/
def FuturesQueue.listenReady (self : FuturesQueue) : Bool := decide (0 < self.signals)

/-- Modelled from the spec: effect of the futures-queue listen resolving —
all pending signals are coalesced and consumed. -/
def FuturesQueue.listenConsume (self : FuturesQueue) : FuturesQueue := { self with signals := 0 }

/-- What a task pending on the local executor is: a coroutine task spawned
by `process_thread` (`runtime.rs` lines 248-260, running `run_until_yield`),
or a thread-local future adopted from the futures queue (line 309). -/
inductive ExecTaskKind
  | luaTask (thread : LuaThread) (args : LuaMultiValue)
  | localFut (fid : Nat)
  deriving DecidableEq, Repr

/-- A task on the local executor, tagged with a unique task id. -/
structure ExecTask where
  taskId : Nat
  kind : ExecTaskKind
  deriving DecidableEq, Repr

/-- The scheduler state inside `Runtime::run`: the interpreter, the two
thread queues, the futures queue, the pending tasks of the local executor,
and a fresh-task-id counter. -/
structure RunState where
  lua : Lua
  queueSpawn : ThreadQueue
  queueDefer : ThreadQueue
  futQueue : FuturesQueue
  localExec : List ExecTask
  nextTaskId : Nat
  deriving DecidableEq, Repr

/-- The scheduler state on entry to the main loop: empty queues, no tasks. -/
def initialRunState (lua : Lua) : RunState :=
  { lua := lua, queueSpawn := ThreadQueue.new, queueDefer := ThreadQueue.new,
    futQueue := FuturesQueue.new, localExec := [], nextTaskId := 0 }

/-- Environment input for one loop iteration: which pending executor tasks
ran to completion while the local executor was ticked during the four-way
race, and whether the executor made progress at all (the `fut_tick` arm of
the race completes only when `local_exec.tick()` runs a scheduled task). -/
structure TickEnv where
  completed : List Nat
  progressed : Bool
  deriving DecidableEq, Repr

/-- Consistency of an environment input with the current state: the
executor can only progress when it has pending tasks, and tasks can only
complete when the executor progressed. -/
def TickEnv.valid (env : TickEnv) (s : RunState) : Prop :=
  (env.progressed = true → s.localExec ≠ []) ∧
  (env.completed ≠ [] → env.progressed = true)

/-- The four arms of the scheduler race (`runtime.rs` lines 263-284). -/
inductive RaceArm
  | spawnArm
  | deferArm
  | futsArm
  | tickArm
  deriving DecidableEq, Repr

/-- The four-way race (`runtime.rs` lines 280-284). `or` polls its arms
left to right, so the first ready arm in the order spawn-listen,
defer-listen, futures-listen, executor-tick wins; when no arm is ready the
race — and with it the whole loop — stays suspended. -/
def raceWinner (s : RunState) (progressed : Bool) : Option RaceArm :=
  if s.queueSpawn.listenReady then some .spawnArm
  else if s.queueDefer.listenReady then some .deferArm
  else if s.futQueue.listenReady then some .futsArm
  else if progressed then some .tickArm
  else none

/-- The winning listen consumes (coalesces) all pending signals of its own
queue; the dropped losing listens consume nothing. -/
def consumeWinnerSignals (s : RunState) : RaceArm → RunState
  | .spawnArm => { s with queueSpawn := s.queueSpawn.listenConsume }
  | .deferArm => { s with queueDefer := s.queueDefer.listenConsume }
  | .futsArm => { s with futQueue := s.futQueue.listenConsume }
  | .tickArm => s

/-- Which queue a dispatched item was drained from. -/
inductive DispatchKind
  | spawnItem
  | deferItem
  | futureItem
  deriving DecidableEq, Repr

/-- One dispatch event: an item of some queue was handed to the local
executor as the task with the given id. -/
structure Dispatch where
  kind : DispatchKind
  taskId : Nat
  deriving DecidableEq, Repr

/-- `process_thread` applied to every drained item of one thread queue
(`runtime.rs` lines 294-301): each materialised coroutine that is still
resumable is spawned as a fresh detached local-executor task; coroutines
cancelled in the meantime are silently dropped. Returns the updated
fresh-id counter and executor, and the dispatch events in order. -/
def dispatchThreads (k : DispatchKind) (nextId : Nat) (exec : List ExecTask) :
    List (LuaThread × LuaMultiValue) → Nat × List ExecTask × List Dispatch
  | [] => (nextId, exec, [])
  | (t, args) :: rest =>
    if t.tstatus = .resumable then
      let task : ExecTask := { taskId := nextId, kind := .luaTask t args }
      let r := dispatchThreads k (nextId + 1) (exec ++ [task]) rest
      (r.1, r.2.1, { kind := k, taskId := nextId } :: r.2.2)
    else
      dispatchThreads k nextId exec rest

/-- Adopt every drained thread-local future as a detached task on the local
executor (`runtime.rs` lines 307-311). -/
def dispatchFutures (nextId : Nat) (exec : List ExecTask) :
    List Nat → Nat × List ExecTask × List Dispatch
  | [] => (nextId, exec, [])
  | fid :: rest =>
    let task : ExecTask := { taskId := nextId, kind := .localFut fid }
    let r := dispatchFutures (nextId + 1) (exec ++ [task]) rest
    (r.1, r.2.1, { kind := .futureItem, taskId := nextId } :: r.2.2)

/-- Result of one pass through the loop body: the race never resolved
(`blocked`), or the drain-and-dispatch cycle ran and the loop either exited
(`local_exec.is_empty()`, line 318) or went round again. -/
inductive TickOutcome
  | blocked
  | exitedLoop (s : RunState) (trace : List Dispatch)
  | continuedLoop (s : RunState) (trace : List Dispatch)
  deriving DecidableEq, Repr

/-- One iteration of the scheduler main loop (`runtime.rs` lines 262-321):
wait for the first of the four event sources (tasks completing while the
executor is ticked leave the executor), then drain and dispatch the spawn
queue, the defer queue and the futures queue in that order, then exit if
and only if the local executor is empty. -/
def tickBody (s : RunState) (env : TickEnv) : PanicOr TickOutcome :=
  let exec0 := s.localExec.filter (fun t => !(env.completed.contains t.taskId))
  let s0 := { s with localExec := exec0 }
  match raceWinner s0 env.progressed with
  | none => .ok .blocked
  | some w =>
    let s1 := consumeWinnerSignals s0 w
    match s1.queueSpawn.drain s1.lua with
    | .panicked m => .panicked m
    | .ok (lua1, itemsS, qS) =>
      match s1.queueDefer.drain lua1 with
      | .panicked m => .panicked m
      | .ok (lua2, itemsD, qD) =>
        let r1 := dispatchThreads .spawnItem s1.nextTaskId s1.localExec itemsS
        let r2 := dispatchThreads .deferItem r1.1 r1.2.1 itemsD
        let rf := s1.futQueue.drainItems
        let r3 := dispatchFutures r2.1 r2.2.1 rf.1
        let s2 : RunState := { lua := lua2, queueSpawn := qS, queueDefer := qD,
                               futQueue := rf.2, localExec := r3.2.1, nextTaskId := r3.1 }
        let trace := r1.2.2 ++ (r2.2.2 ++ r3.2.2)
        if r3.2.1.isEmpty then .ok (.exitedLoop s2 trace)
        else .ok (.continuedLoop s2 trace)

/-- External history entries of a run: pushes performed by producers
(embedder threads or code running inside executor tasks) and loop
iterations with their environment input. -/
inductive RunOp
  | pushSpawnOp (t : LuaThread) (args : LuaMultiValue)
  | pushDeferOp (t : LuaThread) (args : LuaMultiValue)
  | pushFutOp (fid : Nat)
  | tickOp (env : TickEnv)
  deriving DecidableEq, Repr

/-- Outcome of driving the loop through a finite history: the loop is still
going (or still suspended), the loop exited and `run` returned, or a panic
aborted everything. -/
inductive RunOutcome
  | stillRunning (s : RunState)
  | completedRun (s : RunState)
  | abortedRun (msg : String)
  deriving DecidableEq, Repr

/-- Drive the scheduler through a history of pushes and loop iterations.
A push whose conversion fails returns the error to the pusher and leaves
the scheduler untouched; a blocked iteration leaves the state unchanged
(the race simply has not resolved yet); once the loop exits, `run` has
returned and later history is irrelevant. -/
def runLoop (s : RunState) : List RunOp → RunOutcome
  | [] => .stillRunning s
  | op :: rest =>
    match op with
    | .pushSpawnOp t args =>
      match s.queueSpawn.push s.lua (.ofThread t) args with
      | .panicked m => .abortedRun m
      | .ok (.error _) => runLoop s rest
      | .ok (.ok (lua1, q1)) => runLoop { s with lua := lua1, queueSpawn := q1 } rest
    | .pushDeferOp t args =>
      match s.queueDefer.push s.lua (.ofThread t) args with
      | .panicked m => .abortedRun m
      | .ok (.error _) => runLoop s rest
      | .ok (.ok (lua1, q1)) => runLoop { s with lua := lua1, queueDefer := q1 } rest
    | .pushFutOp fid => runLoop { s with futQueue := s.futQueue.pushItem fid } rest
    | .tickOp env =>
      match tickBody s env with
      | .panicked m => .abortedRun m
      | .ok .blocked => runLoop s rest
      | .ok (.continuedLoop s1 _) => runLoop s1 rest
      | .ok (.exitedLoop s1 _) => .completedRun s1

/-! ### `runtime.rs` / `traits.rs`: status, metadata attachment, extension surface -/

/-- Modelled from the spec: the `Status` enum (its module is declared in
`lib.rs` but not under `src/`): `NotStarted → Running → Completed`,
monotonically advancing (§3, §4.7); `runtime.rs` additionally uses
`Status::is_running`. -/
inductive Status
  | notStarted
  | running
  | completed
  deriving DecidableEq, Repr

/-- `Status::is_running` (used by the error-callback mutation asserts). -/
def Status.isRunning : Status → Bool
  | .running => true
  | _ => false

/-- Position of a status along the `NotStarted → Running → Completed`
progression. -/
def statusRank : Status → Nat
  | .notStarted => 0
  | .running => 1
  | .completed => 2

/-- A weak reference (`Weak<Executor>` / `Weak<FuturesQueue>`): it upgrades
only while the referent is alive. -/
structure WeakRef where
  alive : Bool
  deriving DecidableEq, Repr

/-- The app data attached to the interpreter state (`Lua::set_app_data`):
one slot per singleton type. The queue and callback slots carry the id of
the owning runtime; the executor and futures-queue slots carry weak
references attached for the duration of `run`. -/
structure LuaAppData where
  queueSpawnData : Option Nat
  queueDeferData : Option Nat
  errorCallbackData : Option Nat
  execData : Option WeakRef
  futQueueData : Option WeakRef
  deriving DecidableEq, Repr

/-- A fresh interpreter state carries no runtime metadata. -/
def freshAppData : LuaAppData :=
  { queueSpawnData := none, queueDeferData := none, errorCallbackData := none,
    execData := none, futQueueData := none }

/-- The panic diagnostic of `runtime.rs` (`ERR_METADATA_ALREADY_ATTACHED`),
naming the likely causes. -/
def ERR_METADATA_ALREADY_ATTACHED : String :=
  "Lua state already has runtime metadata attached! This may be caused by running multiple runtimes on the same Lua state, or a call to Runtime::run being cancelled."

/-- The panic diagnostic of `runtime.rs` (`ERR_METADATA_REMOVED`). -/
def ERR_METADATA_REMOVED : String :=
  "Lua state runtime metadata was unexpectedly removed! This should never happen, and is likely a bug in the runtime."

/-- `Runtime::new` (`runtime.rs` lines 62-92): assert that none of the
spawn-queue, defer-queue and error-callback singletons is attached
(panicking with the duplicate-runtime diagnostic otherwise), attach clones
of all three, and return with status `NotStarted` (line 66). -/
def Runtime.construct (ad : LuaAppData) (rid : Nat) : PanicOr (LuaAppData × Status) :=
  if ad.queueSpawnData.isSome then .panicked ERR_METADATA_ALREADY_ATTACHED
  else if ad.queueDeferData.isSome then .panicked ERR_METADATA_ALREADY_ATTACHED
  else if ad.errorCallbackData.isSome then .panicked ERR_METADATA_ALREADY_ATTACHED
  else .ok ({ ad with
                queueSpawnData := some rid,
                queueDeferData := some rid,
                errorCallbackData := some rid }, Status.notStarted)

/-- The metadata checks and attachment on entry to `Runtime::run`
(`runtime.rs` lines 223-233): assert that no executor and no futures-queue
metadata is attached (panicking with the duplicate-runtime diagnostic
otherwise), then attach live weak references to both. -/
def Runtime.runEntry (ad : LuaAppData) : PanicOr LuaAppData :=
  if ad.execData.isSome then .panicked ERR_METADATA_ALREADY_ATTACHED
  else if ad.futQueueData.isSome then .panicked ERR_METADATA_ALREADY_ATTACHED
  else .ok { ad with execData := some { alive := true }, futQueueData := some { alive := true } }

/-- The cleanup on exit from `Runtime::run` (`runtime.rs` lines 334-340):
remove the executor and futures-queue metadata, panicking with the
metadata-removed diagnostic if either is absent. -/
def Runtime.runExit (ad : LuaAppData) : PanicOr LuaAppData :=
  match ad.execData with
  | none => .panicked ERR_METADATA_REMOVED
  | some _ =>
    match ad.futQueueData with
    | none => .panicked ERR_METADATA_REMOVED
    | some _ => .ok { ad with execData := none, futQueueData := none }

/-- `LuaRuntimeExt::push_thread_front` for `Lua` (`traits.rs` lines
179-188): look the spawned-thread queue up in the app data, panicking when
it is absent, then push onto it (the push itself succeeds here; its
out-of-memory behaviour is covered by `ThreadQueue.push`). Returns the id
of the runtime whose queue received the item. -/
def luaPushThreadFront (ad : LuaAppData) : PanicOr Nat :=
  match ad.queueSpawnData with
  | none => .panicked "lua threads can only be pushed within a runtime"
  | some q => .ok q

/-- `LuaRuntimeExt::push_thread_back` for `Lua` (`traits.rs` lines
190-199), symmetric to the front push. -/
def luaPushThreadBack (ad : LuaAppData) : PanicOr Nat :=
  match ad.queueDeferData with
  | none => .panicked "lua threads can only be pushed within a runtime"
  | some q => .ok q

/-- `LuaRuntimeExt::spawn` for `Lua` (`traits.rs` lines 201-209): look the
weak executor reference up (panicking when absent), upgrade it (panicking
when the executor was dropped), then spawn. -/
def luaSpawn (ad : LuaAppData) : PanicOr Unit :=
  match ad.execData with
  | none => .panicked "futures can only be spawned within a runtime"
  | some w => if w.alive then .ok () else .panicked "executor was dropped"

/-- `LuaRuntimeExt::spawn_local` for `Lua` (`traits.rs` lines 211-219):
look the weak futures-queue reference up (panicking when absent), upgrade
it (panicking when dropped), then push the future. -/
def luaSpawnLocal (ad : LuaAppData) : PanicOr Unit :=
  match ad.futQueueData with
  | none => .panicked "futures can only be spawned within a runtime"
  | some w => if w.alive then .ok () else .panicked "executor was dropped"

/-- The interpreter state is inside a `run`: executor and futures-queue
metadata are attached and alive, and the queue singletons are attached. -/
def LuaAppData.insideRun (ad : LuaAppData) : Prop :=
  ad.queueSpawnData.isSome = true ∧ ad.queueDeferData.isSome = true ∧
  ad.execData = some { alive := true } ∧ ad.futQueueData = some { alive := true }

/-! ### `Runtime::run` as a sequence of actions (status lifecycle) -/

/-- The externally observable actions `Runtime::run` performs, in source
order (`runtime.rs` lines 213-340): executor and futures-queue creation,
the two metadata asserts, the two metadata attachments, the status writes,
the main-loop iterations, and the metadata cleanup. -/
inductive RunAction
  | createExecutors
  | assertNoExecData
  | assertNoFutQueueData
  | attachExecData
  | attachFutQueueData
  | setStatus (st : Status)
  | loopIteration
  | detachExecData
  | detachFutQueueData
  deriving DecidableEq, Repr

/-- The actions `Runtime::run` performs before entering the main loop, in
source order (`runtime.rs` lines 213-233 and 325): executor and
futures-queue creation, the two metadata asserts, the two metadata
attachments, and only then the write of `Running`. -/
def preLoopRunActions : List RunAction :=
  [.createExecutors, .assertNoExecData, .assertNoFutQueueData,
   .attachExecData, .attachFutQueueData, .setStatus .running]

/-- The actions `Runtime::run` performs after the main loop exits
(`runtime.rs` lines 332-340): the write of `Completed`, then the removal of
the executor and futures-queue metadata. -/
def postLoopRunActions : List RunAction :=
  [.setStatus .completed, .detachExecData, .detachFutQueueData]

/-- The action sequence of one `Runtime::run` whose main loop performs `n`
iterations. -/
def runActions (n : Nat) : List RunAction :=
  preLoopRunActions ++ List.replicate n .loopIteration ++ postLoopRunActions

/-- How an action updates the status cell: only `setStatus` writes it. -/
def statusStep (st : Status) : RunAction → Status
  | .setStatus s => s
  | _ => st

/-- The statuses an observer can read while a list of actions runs: the
status before the first action followed by the status after each action. -/
def statusTraceFrom (st : Status) : List RunAction → List Status
  | [] => [st]
  | a :: rest => st :: statusTraceFrom (statusStep st a) rest

/-- The statuses an observer can read over a whole run: the initial
`NotStarted` from construction (`runtime.rs` line 66) followed by the
status after each action of `run`. -/
def statusTrace (n : Nat) : List Status :=
  statusTraceFrom Status.notStarted (runActions n)

/-! ### `queue.rs`: the push/signal protocol as a micro-step system

`ThreadQueue::push` performs two separately visible steps on shared state:
it publishes the item to the container (`queue.rs` line 45) and then sends
one notification on the signal channel (line 46). To reason about what a
consumer awakened by `listen` can observe under concurrent producers, the
two steps are modelled as atomic micro-operations and producers as
interleaved programs built from them. -/

/-- The two micro-operations a producer performs on the shared queue. -/
inductive QOp
  | enqItem (stored : ThreadWithArgs)
  | sendSignal
  deriving DecidableEq, Repr

/-- Effect of one producer micro-operation on the queue state. -/
def qopStep (q : ThreadQueue) : QOp → ThreadQueue
  | .enqItem stored => { q with queue := q.queue ++ [stored] }
  | .sendSignal => { q with signals := q.signals + 1 }

/-- Producer programs generated by `ThreadQueue::push`: a sequence of
complete push blocks, each of which first publishes its item to the
container and only then sends the signal (`queue.rs` lines 45-46, in that
source order). -/
inductive PushProg : List QOp → Prop
  | nil : PushProg []
  | push (stored : ThreadWithArgs) (rest : List QOp) :
      PushProg rest → PushProg (.enqItem stored :: .sendSignal :: rest)

/-- A producer may also be caught mid-push: it has already published its
item and still owes the signal. -/
def ProducerOk (p : List QOp) : Prop :=
  PushProg p ∨ ∃ p2, p = QOp.sendSignal :: p2 ∧ PushProg p2

/-- Number of signals a producer still owes for an item it has already
published. -/
def producerDebt : List QOp → Nat
  | .sendSignal :: _ => 1
  | _ => 0

/-- Total signal debt across all producers. -/
def totalDebt : List (List QOp) → Nat
  | [] => 0
  | p :: rest => producerDebt p + totalDebt rest

/-- A queue shared between any number of producers (each with its remaining
program) and the listening consumer. -/
structure QueueSys where
  qstate : ThreadQueue
  producers : List (List QOp)

/-- Interleaved execution: any producer takes its next micro-step, or the
consumer's `listen` resolves (requiring a pending signal, and coalescing
all of them). No drain occurs in this relation: it describes the window in
which no consumer has drained the queue. -/
inductive QueueStep : QueueSys → QueueSys → Prop
  | producerStep (s : QueueSys) (i : Nat) (op : QOp) (rest : List QOp)
      (h : s.producers[i]? = some (op :: rest)) :
      QueueStep s { qstate := qopStep s.qstate op, producers := s.producers.set i rest }
  | listenStep (s : QueueSys) (h : s.qstate.listenReady = true) :
      QueueStep s { s with qstate := s.qstate.listenConsume }

/-- Reachability in the interleaved execution. -/
inductive QueueReach : QueueSys → QueueSys → Prop
  | refl (s : QueueSys) : QueueReach s s
  | tail (s t u : QueueSys) : QueueReach s t → QueueStep t u → QueueReach s u

/-- The coherence invariant: pending signals (plus signals still owed by
mid-push producers) never exceed the number of items in the container. -/
def QueueInvariant (s : QueueSys) : Prop :=
  (∀ p ∈ s.producers, ProducerOk p) ∧
  s.qstate.signals + totalDebt s.producers ≤ s.qstate.queue.length

/-! ### Derived notions used by the statements -/

/-- Push a list of already-existing coroutines (with their argument
tuples) one after the other onto a thread queue, from a single producer. -/
def pushAllThreads (lua : Lua) (q : ThreadQueue) :
    List (LuaThread × LuaMultiValue) → PanicOr (LuaResult (Lua × ThreadQueue))
  | [] => .ok (.ok (lua, q))
  | (t, args) :: rest =>
    match q.push lua (.ofThread t) args with
    | .panicked m => .panicked m
    | .ok (.error e) => .ok (.error e)
    | .ok (.ok (lua1, q1)) => pushAllThreads lua1 q1 rest

/-- All registry keys referenced by the stored items of a queue, in queue
order. -/
def queueKeys : List ThreadWithArgs → List Nat
  | [] => []
  | twa :: rest => twa.key_thread :: twa.key_args :: queueKeys rest

/-- Every registry key is below the fresh-key counter (true of every state
the interpreter can actually be in, since keys are allocated from the
counter). -/
def KeysBounded (lua : Lua) : Prop := ∀ p ∈ lua.registry, p.1 < lua.nextKey

/-- The multiset of keys currently present in the registry. -/
def regKeys (lua : Lua) : Multiset Nat := (lua.registry.map Prod.fst : List Nat)

/-- The multiset of registry keys referenced by the scheduler's two thread
queues. -/
def schedKeys (s : RunState) : Multiset Nat :=
  (queueKeys s.queueSpawn.queue : List Nat) + (queueKeys s.queueDefer.queue : List Nat)

/-- Coherent storage: the queued items' keys are pairwise distinct, below
the fresh-key counter, and each item's two keys map to the expected
coroutine and argument values of `vals`. -/
structure StoredOk (lua : Lua) (q : List ThreadWithArgs)
    (vals : List (LuaThread × LuaMultiValue)) : Prop where
  len : q.length = vals.length
  nodup : (queueKeys q).Nodup
  below : ∀ k ∈ queueKeys q, k < lua.nextKey
  look : ∀ pr ∈ q.zip vals,
    lua.registryValue pr.1.key_thread = some (.threadVal pr.2.1) ∧
    lua.registryValue pr.1.key_args = some (.argsVal pr.2.2)

/-! ### Concrete fixtures used by witnesses and counterexamples -/

/-- A fresh interpreter with no allocation limit. -/
def luaEmpty : Lua := { registry := [], nextKey := 0, nextThreadId := 0, capacity := none }

/-- An interpreter whose next allocation fails (out of memory). -/
def luaFull : Lua := { registry := [], nextKey := 0, nextThreadId := 0, capacity := some 0 }

/-- A resumable coroutine. -/
def thread0 : LuaThread := { tid := 0, tstatus := .resumable }

/-- A second resumable coroutine. -/
def thread1 : LuaThread := { tid := 1, tstatus := .resumable }

/-- An interpreter whose registry already stores two coroutine items (for
the two queues of the dispatch-order fixture). -/
def luaStored : Lua :=
  { registry := [(0, .threadVal thread0), (1, .argsVal []),
                 (2, .threadVal thread1), (3, .argsVal [])],
    nextKey := 4, nextThreadId := 2, capacity := none }

/-- A scheduler state with one spawned item, one deferred item and one
thread-local future all waiting to be drained. -/
def stateBothQueues : RunState :=
  { lua := luaStored,
    queueSpawn := { queue := [{ key_thread := 0, key_args := 1 }], signals := 1 },
    queueDefer := { queue := [{ key_thread := 2, key_args := 3 }], signals := 1 },
    futQueue := { queue := [7], signals := 1 },
    localExec := [], nextTaskId := 0 }

/-- A scheduler state holding only a stale spawn signal: the queue
containers are all empty. -/
def stateStaleSignal : RunState :=
  { lua := luaEmpty,
    queueSpawn := { queue := [], signals := 1 },
    queueDefer := ThreadQueue.new,
    futQueue := FuturesQueue.new,
    localExec := [], nextTaskId := 0 }

/-- A stored item (registry keys 0 and 1) for the micro-step fixtures. -/
def twaW : ThreadWithArgs := { key_thread := 0, key_args := 1 }

/-- Micro-step fixture: an empty queue and one producer about to push. -/
def qsys0 : QueueSys :=
  { qstate := ThreadQueue.new, producers := [[QOp.enqItem twaW, QOp.sendSignal]] }

/-- Micro-step fixture: the producer has published its item but not yet
signalled. -/
def qsys1 : QueueSys :=
  { qstate := { queue := [twaW], signals := 0 }, producers := [[QOp.sendSignal]] }

/-- Micro-step fixture: the producer has published and signalled. -/
def qsys2 : QueueSys :=
  { qstate := { queue := [twaW], signals := 1 }, producers := [[]] }

/-- The app data after a successful `Runtime::new` with runtime id 0, with
`run` not (yet) entered. -/
def adConstructed : LuaAppData :=
  { queueSpawnData := some 0, queueDeferData := some 0, errorCallbackData := some 0,
    execData := none, futQueueData := none }

/-- The app data while `run` is executing: queues, callback and live weak
references all attached. -/
def adInRun : LuaAppData :=
  { queueSpawnData := some 0, queueDeferData := some 0, errorCallbackData := some 0,
    execData := some { alive := true }, futQueueData := some { alive := true } }

/-! ## Theorems -/

/-- C5 counterexample: on an interpreter whose registry insertion fails,
pushing an existing coroutine panics with the `out of memory` message
(`ThreadWithArgs::new` uses `.expect(ERR_OOM)`); it does not return an
`OutOfMemory` error to the caller. -/
theorem c5_push_registry_oom_panics :
    ThreadQueue.new.push luaFull (.ofThread thread0) [] = .panicked ERR_OOM ∧
    ThreadQueue.new.push luaFull (.ofThread thread0) [] ≠ .ok (.error .outOfMemory) := by
  decide

/-- C5 (amended): when registry insertion fails during a push, the process
panics with the `out of memory` message rather than returning an error;
conversion failures of `into_lua_thread` (for example wrapping a function
or chunk while out of memory) are the failures returned to the caller. -/
theorem c5_amended_oom_behaviour :
    (∀ (lua : Lua) (q : ThreadQueue) (t : LuaThread) (args : LuaMultiValue),
      lua.atCapacity = true →
      q.push lua (.ofThread t) args = .panicked ERR_OOM) ∧
    (∀ (lua : Lua) (q : ThreadQueue) (input : ThreadInput) (args : LuaMultiValue)
      (e : LuaError),
      intoLuaThread input lua = .error e →
      q.push lua input args = .ok (.error e)) := by
  constructor
  · intro lua q t args h
    simp [ThreadQueue.push, intoLuaThread, ThreadWithArgs.new, Lua.createRegistryValue, h]
  · intro lua q input args e h
    simp [ThreadQueue.push, h]

/-- C5 witness: the amended behaviour at concrete inputs — a coroutine push
on a full interpreter panics, a function push on a full interpreter returns
the out-of-memory error. -/
theorem c5_amended_oom_behaviour_witness :
    luaFull.atCapacity = true ∧
    ThreadQueue.new.push luaFull (.ofThread thread0) [] = .panicked ERR_OOM ∧
    intoLuaThread .ofFunction luaFull = .error .outOfMemory ∧
    ThreadQueue.new.push luaFull .ofFunction [] = .ok (.error .outOfMemory) :=
  ⟨by decide,
   c5_amended_oom_behaviour.1 luaFull ThreadQueue.new thread0 [] (by decide),
   by decide,
   c5_amended_oom_behaviour.2 luaFull ThreadQueue.new .ofFunction [] .outOfMemory (by decide)⟩

/-- C6: constructing a runtime while any of the three queue/callback
singletons is attached panics with the duplicate-runtime diagnostic;
entering `run` while executor or futures-queue metadata is attached panics
likewise; and after a successful construction a second construction on the
resulting state always panics, so at most one runtime is attached to an
interpreter state at any time. -/
theorem c6_duplicate_runtime_aborts :
    (∀ (ad : LuaAppData) (rid : Nat),
      (ad.queueSpawnData.isSome = true ∨ ad.queueDeferData.isSome = true ∨
       ad.errorCallbackData.isSome = true) →
      Runtime.construct ad rid = .panicked ERR_METADATA_ALREADY_ATTACHED) ∧
    (∀ ad : LuaAppData,
      (ad.execData.isSome = true ∨ ad.futQueueData.isSome = true) →
      Runtime.runEntry ad = .panicked ERR_METADATA_ALREADY_ATTACHED) ∧
    (∀ (ad ad2 : LuaAppData) (rid rid2 : Nat) (st : Status),
      Runtime.construct ad rid = .ok (ad2, st) →
      Runtime.construct ad2 rid2 = .panicked ERR_METADATA_ALREADY_ATTACHED) := by
  refine ⟨?_, ?_, ?_⟩
  · intro ad rid h
    unfold Runtime.construct
    rcases h with h | h | h
    · simp [h]
    · by_cases h1 : ad.queueSpawnData.isSome <;> simp [h1, h]
    · by_cases h1 : ad.queueSpawnData.isSome <;>
        by_cases h2 : ad.queueDeferData.isSome <;> simp [h1, h2, h]
  · intro ad h
    unfold Runtime.runEntry
    rcases h with h | h
    · simp [h]
    · by_cases h1 : ad.execData.isSome <;> simp [h1, h]
  · intro ad ad2 rid rid2 st h
    unfold Runtime.construct at h
    split_ifs at h with h1 h2 h3
    injection h with h
    injection h with had hst
    subst had
    simp [Runtime.construct]

/-- C6 witness: the duplicate-runtime panics at concrete inputs — a state
with a spawn queue attached, a state with executor metadata attached, and
a second construction after a successful first. -/
theorem c6_duplicate_runtime_aborts_witness :
    (adConstructed.queueSpawnData.isSome = true ∨
     adConstructed.queueDeferData.isSome = true ∨
     adConstructed.errorCallbackData.isSome = true) ∧
    Runtime.construct adConstructed 1 = .panicked ERR_METADATA_ALREADY_ATTACHED ∧
    (adInRun.execData.isSome = true ∨ adInRun.futQueueData.isSome = true) ∧
    Runtime.runEntry adInRun = .panicked ERR_METADATA_ALREADY_ATTACHED ∧
    Runtime.construct freshAppData 0 = .ok (adConstructed, .notStarted) ∧
    Runtime.construct adConstructed 1 = .panicked ERR_METADATA_ALREADY_ATTACHED :=
  ⟨Or.inl (by decide),
   c6_duplicate_runtime_aborts.1 adConstructed 1 (Or.inl (by decide)),
   Or.inl (by decide),
   c6_duplicate_runtime_aborts.2.1 adInRun (Or.inl (by decide)),
   by decide,
   c6_duplicate_runtime_aborts.2.2 freshAppData adConstructed 0 1 .notStarted (by decide)⟩

/-- C7 counterexample: after `Runtime::new` but before `run`, no run is
executing (no executor metadata is attached), yet `push_thread_front` on
the interpreter state succeeds — it does not panic. This falsifies the
claim that `push_front` panics whenever it is called outside of a run. -/
theorem c7_push_outside_run_succeeds :
    Runtime.construct freshAppData 0 = .ok (adConstructed, .notStarted) ∧
    adConstructed.execData = none ∧
    luaPushThreadFront adConstructed = .ok 0 ∧
    (luaPushThreadFront adConstructed).isPanicked = false := by
  decide

/-- C7 (amended): `spawn` and `spawn_local` panic whenever called outside a
run (no executor / futures-queue metadata attached, or the referent
dropped); `push_thread_front` / `push_thread_back` panic exactly when no
runtime queue is attached to the state — they already succeed between
construction and `run`; and inside a run all four calls succeed. -/
theorem c7_amended_extension_surface :
    (∀ ad : LuaAppData, ad.queueSpawnData = none →
      luaPushThreadFront ad = .panicked "lua threads can only be pushed within a runtime") ∧
    (∀ (ad : LuaAppData) (q : Nat), ad.queueSpawnData = some q →
      luaPushThreadFront ad = .ok q) ∧
    (∀ ad : LuaAppData, ad.queueDeferData = none →
      luaPushThreadBack ad = .panicked "lua threads can only be pushed within a runtime") ∧
    (∀ (ad : LuaAppData) (q : Nat), ad.queueDeferData = some q →
      luaPushThreadBack ad = .ok q) ∧
    (∀ ad : LuaAppData, ad.execData = none →
      luaSpawn ad = .panicked "futures can only be spawned within a runtime") ∧
    (∀ ad : LuaAppData, ad.execData = some { alive := false } →
      luaSpawn ad = .panicked "executor was dropped") ∧
    (∀ ad : LuaAppData, ad.futQueueData = none →
      luaSpawnLocal ad = .panicked "futures can only be spawned within a runtime") ∧
    (∀ ad : LuaAppData, ad.futQueueData = some { alive := false } →
      luaSpawnLocal ad = .panicked "executor was dropped") ∧
    (∀ ad : LuaAppData, ad.insideRun →
      (luaPushThreadFront ad).isPanicked = false ∧
      (luaPushThreadBack ad).isPanicked = false ∧
      luaSpawn ad = .ok () ∧ luaSpawnLocal ad = .ok ()) := by
  refine ⟨?_, ?_, ?_, ?_, ?_, ?_, ?_, ?_, ?_⟩
  · intro ad h; simp [luaPushThreadFront, h]
  · intro ad q h; simp [luaPushThreadFront, h]
  · intro ad h; simp [luaPushThreadBack, h]
  · intro ad q h; simp [luaPushThreadBack, h]
  · intro ad h; simp [luaSpawn, h]
  · intro ad h; simp [luaSpawn, h]
  · intro ad h; simp [luaSpawnLocal, h]
  · intro ad h; simp [luaSpawnLocal, h]
  · intro ad h
    obtain ⟨h1, h2, h3, h4⟩ := h
    refine ⟨?_, ?_, ?_, ?_⟩
    · cases hq : ad.queueSpawnData with
      | none => rw [hq] at h1; cases h1
      | some q => simp [luaPushThreadFront, hq, PanicOr.isPanicked]
    · cases hq : ad.queueDeferData with
      | none => rw [hq] at h2; cases h2
      | some q => simp [luaPushThreadBack, hq, PanicOr.isPanicked]
    · simp [luaSpawn, h3]
    · simp [luaSpawnLocal, h4]

/-- C7 witness: the amended extension-surface behaviour at concrete
states — panics on the fresh state, success after construction and inside
a run. -/
theorem c7_amended_extension_surface_witness :
    freshAppData.queueSpawnData = none ∧
    luaPushThreadFront freshAppData =
      .panicked "lua threads can only be pushed within a runtime" ∧
    freshAppData.execData = none ∧
    luaSpawn freshAppData = .panicked "futures can only be spawned within a runtime" ∧
    adConstructed.queueSpawnData = some 0 ∧
    luaPushThreadFront adConstructed = .ok 0 ∧
    adInRun.insideRun ∧
    luaSpawn adInRun = .ok () :=
  ⟨rfl,
   c7_amended_extension_surface.1 freshAppData rfl,
   rfl,
   c7_amended_extension_surface.2.2.2.2.1 freshAppData rfl,
   rfl,
   c7_amended_extension_surface.2.1 adConstructed 0 rfl,
   ⟨by decide, by decide, by decide, by decide⟩,
   (c7_amended_extension_surface.2.2.2.2.2.2.2.2 adInRun
     ⟨by decide, by decide, by decide, by decide⟩).2.2.1⟩

lemma statusTraceFrom_loop (n : Nat) :
    statusTraceFrom .running (List.replicate n .loopIteration ++ postLoopRunActions) =
      List.replicate (n + 1) .running ++ List.replicate 3 .completed := by
  induction n with
  | zero => rfl
  | succ n ih =>
    rw [List.replicate_succ, List.cons_append]
    show Status.running :: statusTraceFrom (statusStep .running .loopIteration) _ = _
    rw [show statusStep .running .loopIteration = .running from rfl, ih,
      List.replicate_succ _ (n + 1), List.cons_append]

lemma statusTrace_shape (n : Nat) :
    statusTrace n =
      List.replicate 6 Status.notStarted ++
        (List.replicate (n + 1) Status.running ++ List.replicate 3 Status.completed) := by
  have h := statusTraceFrom_loop n
  simp only [statusTrace, runActions, preLoopRunActions, List.append_eq, List.cons_append,
    List.nil_append, statusTraceFrom, statusStep] at h ⊢
  rw [h]
  rfl

lemma statusTrace_pairwise (n : Nat) :
    List.Pairwise (fun a b => statusRank a ≤ statusRank b) (statusTrace n) := by
  rw [statusTrace_shape n]
  rw [List.pairwise_append]
  refine ⟨List.pairwise_replicate.mpr (Or.inr le_rfl), ?_, ?_⟩
  · rw [List.pairwise_append]
    refine ⟨List.pairwise_replicate.mpr (Or.inr le_rfl),
      List.pairwise_replicate.mpr (Or.inr le_rfl), ?_⟩
    intro a ha b hb
    rw [List.eq_of_mem_replicate ha, List.eq_of_mem_replicate hb]
    decide
  · intro a ha b hb
    rw [List.eq_of_mem_replicate ha]
    rcases List.mem_append.mp hb with hb | hb <;>
      rw [List.eq_of_mem_replicate hb] <;> decide

/-- C8 counterexample: the first action of `Runtime::run` is the creation
of the executors, not the write of `Running`, and the last action is the
removal of the futures-queue metadata, not the write of `Completed` — the
status writes are neither the first nor the last action of `run`. -/
theorem c8_status_not_first_last_action :
    (runActions 0).head? = some RunAction.createExecutors ∧
    (runActions 0).head? ≠ some (RunAction.setStatus Status.running) ∧
    (runActions 0).getLast? = some RunAction.detachFutQueueData ∧
    (runActions 0).getLast? ≠ some (RunAction.setStatus Status.completed) := by
  decide

/-- C8 (amended): the status is `NotStarted` on construction, `run` writes
`Running` once before entering the main loop (after creating the executors
and attaching their metadata) and `Completed` once right after the loop
exits (before detaching the metadata); consequently for any number of loop
iterations the observable statuses form the monotone sequence
`NotStarted*, Running*, Completed*` — a traversal of the prefix order
`NotStarted ≤ Running ≤ Completed`. -/
theorem c8_amended_status_monotone : ∀ n : Nat,
    (Runtime.construct freshAppData 0 = .ok (adConstructed, .notStarted)) ∧
    runActions n =
      preLoopRunActions ++ List.replicate n .loopIteration ++ postLoopRunActions ∧
    statusTrace n =
      List.replicate 6 Status.notStarted ++
        (List.replicate (n + 1) Status.running ++ List.replicate 3 Status.completed) ∧
    (∀ i j (hi : i < (statusTrace n).length) (hj : j < (statusTrace n).length),
      i ≤ j →
      statusRank ((statusTrace n).get ⟨i, hi⟩) ≤ statusRank ((statusTrace n).get ⟨j, hj⟩)) := by
  intro n
  refine ⟨by decide, rfl, statusTrace_shape n, ?_⟩
  intro i j hi hj hij
  rcases Nat.lt_or_ge i j with h | h
  · exact (List.pairwise_iff_get.mp (statusTrace_pairwise n)) ⟨i, hi⟩ ⟨j, hj⟩ h
  · have : i = j := Nat.le_antisymm hij h
    subst this
    exact le_rfl

/-- C8 witness: the amended statement evaluated on a run with one loop
iteration, comparing the observed status at position 0 (before anything
runs) with position 10 (after the final cleanup). -/
theorem c8_amended_status_monotone_witness :
    (0 : Nat) ≤ 10 ∧
    statusRank ((statusTrace 1).get ⟨0, by decide⟩) ≤
      statusRank ((statusTrace 1).get ⟨10, by decide⟩) :=
  ⟨by decide, (c8_amended_status_monotone 1).2.2.2 0 10 (by decide) (by decide) (by decide)⟩

lemma pushProg_inv_enq {x : ThreadWithArgs} {rest : List QOp}
    (h : PushProg (QOp.enqItem x :: rest)) :
    ∃ r2, rest = QOp.sendSignal :: r2 ∧ PushProg r2 := by
  cases h with
  | push _ r2 hr => exact ⟨r2, rfl, hr⟩

lemma pushProg_not_sig {rest : List QOp} (h : PushProg (QOp.sendSignal :: rest)) : False := by
  cases h

lemma pushProg_debt {p : List QOp} (h : PushProg p) : producerDebt p = 0 := by
  cases h <;> rfl

lemma totalDebt_set (l : List (List QOp)) (i : Nat) (p pOld : List QOp)
    (h : l[i]? = some pOld) :
    totalDebt (l.set i p) + producerDebt pOld = totalDebt l + producerDebt p := by
  induction l generalizing i with
  | nil => simp at h
  | cons q rest ih =>
    cases i with
    | zero =>
      simp only [List.getElem?_cons_zero, Option.some.injEq] at h
      subst h
      simp only [List.set_cons_zero, totalDebt]
      omega
    | succ n =>
      simp only [List.getElem?_cons_succ] at h
      simp only [List.set_cons_succ, totalDebt]
      have := ih n h
      omega

lemma queueStep_invariant {s t : QueueSys} (hstep : QueueStep s t)
    (hs : QueueInvariant s) : QueueInvariant t := by
  obtain ⟨hp, hle⟩ := hs
  cases hstep with
  | producerStep i op rest h =>
    have hmem : (op :: rest) ∈ s.producers := List.getElem?_mem h
    have hok : ProducerOk (op :: rest) := hp _ hmem
    have hset : ∀ p2 ∈ s.producers.set i rest, p2 = rest ∨ p2 ∈ s.producers := by
      intro p2 hp2
      rcases List.mem_or_eq_of_mem_set hp2 with h2 | h2
      · exact Or.inr h2
      · exact Or.inl h2
    cases op with
    | enqItem x =>
      have hpp : PushProg (QOp.enqItem x :: rest) := by
        rcases hok with h2 | ⟨p2, h2, _⟩
        · exact h2
        · cases h2
      obtain ⟨r2, hrest, hr2⟩ := pushProg_inv_enq hpp
      have hdebt := totalDebt_set s.producers i rest _ h
      constructor
      · intro p2 hp2
        rcases hset p2 hp2 with h2 | h2
        · subst h2
          exact Or.inr ⟨r2, hrest, hr2⟩
        · exact hp _ h2
      · subst hrest
        simp only [qopStep, producerDebt] at hdebt ⊢
        simp only [List.length_append, List.length_cons, List.length_nil]
        omega
    | sendSignal =>
      have hr2 : PushProg rest := by
        rcases hok with h2 | ⟨p2, h2, hpp⟩
        · exact absurd h2 pushProg_not_sig
        · injection h2 with h3 h4
          subst h4
          exact hpp
      have hdebt := totalDebt_set s.producers i rest _ h
      constructor
      · intro p2 hp2
        rcases hset p2 hp2 with h2 | h2
        · subst h2
          exact Or.inl hr2
        · exact hp _ h2
      · have hd0 : producerDebt rest = 0 := pushProg_debt hr2
        rw [hd0] at hdebt
        simp only [producerDebt] at hdebt
        simp only [qopStep]
        omega
  | listenStep h =>
    refine ⟨hp, ?_⟩
    simp only [ThreadQueue.listenConsume]
    omega

lemma queueReach_invariant {s t : QueueSys} (h : QueueReach s t)
    (hs : QueueInvariant s) : QueueInvariant t := by
  induction h with
  | refl => exact hs
  | tail t u hr hstep ih => exact queueStep_invariant hstep ih

lemma drainAll_length (lua lua2 : Lua) (q : List ThreadWithArgs)
    (items : List (LuaThread × LuaMultiValue)) (h : drainAll lua q = .ok (lua2, items)) :
    items.length = q.length := by
  induction q generalizing lua items with
  | nil =>
    rw [drainAll] at h
    simp only [PanicOr.ok.injEq, Prod.mk.injEq] at h
    rw [← h.2]
    rfl
  | cons twa rest ih =>
    rw [drainAll] at h
    split at h
    · cases h
    · rename_i lua1 t a heq
      split at h
      · cases h
      · rename_i lua3 items3 heq2
        simp only [PanicOr.ok.injEq, Prod.mk.injEq] at h
        obtain ⟨h3, h4⟩ := h
        subst h3
        subst h4
        simp [List.length_cons, ih lua1 items3 heq2]

/-- C4: `ThreadQueue::push` publishes the item to the container before
sending its signal (producers are `PushProg` programs, item first, signal
second). Consequently, in any interleaving of producers with the consumer
in which no drain occurs — that is, unless some consumer has already
drained the item — whenever `listen` can resolve (a signal is pending),
the container is non-empty, so the awakened consumer's subsequent `drain`
yields at least one item. -/
theorem c4_push_before_signal_coherence :
    ∀ s0 s : QueueSys,
      QueueInvariant s0 →
      QueueReach s0 s →
      s.qstate.listenReady = true →
      s.qstate.queue ≠ [] ∧
      (∀ (lua lua2 : Lua) (items : List (LuaThread × LuaMultiValue)) (q2 : ThreadQueue),
        s.qstate.drain lua = .ok (lua2, items, q2) → items ≠ []) := by
  intro s0 s h0 hr hl
  obtain ⟨hp, hle⟩ := queueReach_invariant hr h0
  have hsig : 0 < s.qstate.signals := of_decide_eq_true hl
  have hlen : 0 < s.qstate.queue.length := by omega
  refine ⟨List.ne_nil_of_length_pos hlen, ?_⟩
  intro lua lua2 items q2 hd
  rw [ThreadQueue.drain] at hd
  split at hd
  · cases hd
  · rename_i lua3 items3 heq
    simp only [PanicOr.ok.injEq, Prod.mk.injEq] at hd
    obtain ⟨h1, h2, h3⟩ := hd
    subst h1
    subst h2
    have hlen2 := drainAll_length lua lua3 s.qstate.queue items3 heq
    intro he
    rw [he] at hlen2
    simp at hlen2
    omega

/-- C4 witness: one producer pushes one item from the empty queue; after
its two micro-steps a signal is pending and the theorem yields a non-empty
container. -/
theorem c4_push_before_signal_coherence_witness :
    QueueInvariant qsys0 ∧ QueueReach qsys0 qsys2 ∧
    qsys2.qstate.listenReady = true ∧ qsys2.qstate.queue ≠ [] := by
  have hinv : QueueInvariant qsys0 := by
    constructor
    · intro p hp
      simp only [qsys0, List.mem_singleton] at hp
      subst hp
      exact Or.inl (PushProg.push twaW [] PushProg.nil)
    · simp [qsys0, totalDebt, producerDebt, ThreadQueue.new]
  have hstep1 : QueueStep qsys0 qsys1 :=
    QueueStep.producerStep qsys0 0 (QOp.enqItem twaW) [QOp.sendSignal] rfl
  have hstep2 : QueueStep qsys1 qsys2 :=
    QueueStep.producerStep qsys1 0 QOp.sendSignal [] rfl
  have hreach : QueueReach qsys0 qsys2 :=
    QueueReach.tail qsys0 qsys1 qsys2 (QueueReach.tail qsys0 qsys0 qsys1 (QueueReach.refl qsys0) hstep1) hstep2
  exact ⟨hinv, hreach, by decide,
    (c4_push_before_signal_coherence qsys0 qsys2 hinv hreach (by decide)).1⟩

lemma eraseKey_keys (k : Nat) (r : Registry) (v : RegVal) (h : lookupKey k r = some v) :
    (r.map Prod.fst : Multiset Nat) = k ::ₘ ((eraseKey k r).map Prod.fst : Multiset Nat) := by
  induction r with
  | nil => cases h
  | cons p rest ih =>
    obtain ⟨k2, v2⟩ := p
    rw [lookupKey] at h
    by_cases hk : k2 = k
    · subst hk
      simp [eraseKey]
    · rw [if_neg hk] at h
      simp only [eraseKey, if_neg hk, List.map_cons, ← Multiset.cons_coe]
      rw [ih h, Multiset.cons_swap]

lemma removeRegistryValue_keys {lua lua1 : Lua} {k : Nat}
    (h : lua.removeRegistryValue k = some lua1) :
    regKeys lua = k ::ₘ regKeys lua1 := by
  rw [Lua.removeRegistryValue] at h
  split at h
  · cases h
  · rename_i v heq
    injection h with h
    subst h
    exact eraseKey_keys k lua.registry v heq

lemma intoInner_keys {twa : ThreadWithArgs} {lua lua2 : Lua} {t : LuaThread}
    {a : LuaMultiValue} (h : twa.intoInner lua = .ok (lua2, t, a)) :
    regKeys lua = twa.key_thread ::ₘ twa.key_args ::ₘ regKeys lua2 := by
  rw [ThreadWithArgs.intoInner] at h
  split at h
  · cases h
  · cases h
  · split at h
    · cases h
    · cases h
    · split at h
      · cases h
      · rename_i lua1 h1
        split at h
        · cases h
        · rename_i lua3 h2
          simp only [PanicOr.ok.injEq, Prod.mk.injEq] at h
          obtain ⟨h3, -, -⟩ := h
          subst h3
          rw [removeRegistryValue_keys h1, removeRegistryValue_keys h2]

lemma drainAll_keys {lua lua2 : Lua} {q : List ThreadWithArgs}
    {items : List (LuaThread × LuaMultiValue)} (h : drainAll lua q = .ok (lua2, items)) :
    regKeys lua = (queueKeys q : Multiset Nat) + regKeys lua2 := by
  induction q generalizing lua items with
  | nil =>
    rw [drainAll] at h
    simp only [PanicOr.ok.injEq, Prod.mk.injEq] at h
    rw [h.1]
    simp [queueKeys]
  | cons twa rest ih =>
    rw [drainAll] at h
    split at h
    · cases h
    · rename_i lua1 t a heq
      split at h
      · cases h
      · rename_i lua3 items3 heq2
        simp only [PanicOr.ok.injEq, Prod.mk.injEq] at h
        obtain ⟨h3, -⟩ := h
        subst h3
        rw [intoInner_keys heq, ih heq2]
        simp only [queueKeys, ← Multiset.cons_coe, Multiset.cons_add]

lemma drain_ok_spec {q : ThreadQueue} {lua lua2 : Lua}
    {items : List (LuaThread × LuaMultiValue)} {q2 : ThreadQueue}
    (h : q.drain lua = .ok (lua2, items, q2)) :
    regKeys lua = (queueKeys q.queue : Multiset Nat) + regKeys lua2 ∧
    q2 = { queue := [], signals := q.signals } := by
  rw [ThreadQueue.drain] at h
  split at h
  · cases h
  · rename_i lua3 items3 heq
    simp only [PanicOr.ok.injEq, Prod.mk.injEq] at h
    obtain ⟨h1, -, h3⟩ := h
    subst h1
    exact ⟨drainAll_keys heq, h3.symm⟩

lemma consumeWinner_proj (s : RunState) (w : RaceArm) :
    (consumeWinnerSignals s w).lua = s.lua ∧
    (consumeWinnerSignals s w).queueSpawn.queue = s.queueSpawn.queue ∧
    (consumeWinnerSignals s w).queueDefer.queue = s.queueDefer.queue ∧
    (consumeWinnerSignals s w).futQueue.queue = s.futQueue.queue ∧
    (consumeWinnerSignals s w).localExec = s.localExec ∧
    (consumeWinnerSignals s w).nextTaskId = s.nextTaskId := by
  cases w <;>
    simp [consumeWinnerSignals, ThreadQueue.listenConsume, FuturesQueue.listenConsume]

lemma dispatchThreads_kinds (k : DispatchKind) (nextId : Nat) (exec : List ExecTask)
    (items : List (LuaThread × LuaMultiValue)) :
    ∀ d ∈ (dispatchThreads k nextId exec items).2.2, d.kind = k := by
  induction items generalizing nextId exec with
  | nil => simp [dispatchThreads]
  | cons p rest ih =>
    obtain ⟨t, args⟩ := p
    rw [dispatchThreads]
    by_cases ht : t.tstatus = .resumable
    · simp only [if_pos ht]
      intro d hd
      rcases List.mem_cons.mp hd with h1 | h1
      · rw [h1]
      · exact ih _ _ _ h1
    · simp only [if_neg ht]
      exact ih _ _

lemma dispatchFutures_kinds (nextId : Nat) (exec : List ExecTask) (futs : List Nat) :
    ∀ d ∈ (dispatchFutures nextId exec futs).2.2, d.kind = .futureItem := by
  induction futs generalizing nextId exec with
  | nil => simp [dispatchFutures]
  | cons fid rest ih =>
    rw [dispatchFutures]
    intro d hd
    rcases List.mem_cons.mp hd with h1 | h1
    · rw [h1]
    · exact ih _ _ _ h1

lemma dispatchThreads_length (k : DispatchKind) (nextId : Nat) (exec : List ExecTask)
    (items : List (LuaThread × LuaMultiValue)) :
    (dispatchThreads k nextId exec items).2.1.length =
      exec.length + (dispatchThreads k nextId exec items).2.2.length := by
  induction items generalizing nextId exec with
  | nil => simp [dispatchThreads]
  | cons p rest ih =>
    obtain ⟨t, args⟩ := p
    rw [dispatchThreads]
    by_cases ht : t.tstatus = .resumable
    · simp only [if_pos ht, List.length_cons]
      rw [ih]
      simp only [List.length_append, List.length_cons, List.length_nil]
      omega
    · simp only [if_neg ht]
      exact ih _ _

lemma dispatchFutures_length (nextId : Nat) (exec : List ExecTask) (futs : List Nat) :
    (dispatchFutures nextId exec futs).2.1.length =
      exec.length + (dispatchFutures nextId exec futs).2.2.length := by
  induction futs generalizing nextId exec with
  | nil => simp [dispatchFutures]
  | cons fid rest ih =>
    rw [dispatchFutures]
    simp only [List.length_cons]
    rw [ih]
    simp only [List.length_append, List.length_cons, List.length_nil]
    omega

lemma tickBody_anatomy {s : RunState} {env : TickEnv} {s2 : RunState} {tr : List Dispatch}
    (h : tickBody s env = .ok (.exitedLoop s2 tr) ∨
         tickBody s env = .ok (.continuedLoop s2 tr)) :
    regKeys s.lua = (queueKeys s.queueSpawn.queue : Multiset Nat) +
      ((queueKeys s.queueDefer.queue : Multiset Nat) + regKeys s2.lua) ∧
    s2.queueSpawn.queue = [] ∧ s2.queueDefer.queue = [] ∧ s2.futQueue.queue = [] ∧
    ((tickBody s env = .ok (.exitedLoop s2 tr)) ↔ s2.localExec = []) ∧
    s2.localExec.length =
      (s.localExec.filter (fun t => !(env.completed.contains t.taskId))).length + tr.length ∧
    ∃ trS trD trF, tr = trS ++ (trD ++ trF) ∧
      (∀ d ∈ trS, d.kind = .spawnItem) ∧ (∀ d ∈ trD, d.kind = .deferItem) ∧
      (∀ d ∈ trF, d.kind = .futureItem) := by
  have hout : ∃ out, tickBody s env = .ok out ∧
      (out = .exitedLoop s2 tr ∨ out = .continuedLoop s2 tr) := by
    rcases h with h | h
    · exact ⟨_, h, Or.inl rfl⟩
    · exact ⟨_, h, Or.inr rfl⟩
  obtain ⟨out, hob, hcase⟩ := hout
  have horig : tickBody s env = .ok out := hob
  simp only [tickBody] at hob
  split at hob
  · injection hob with hob
    rcases hcase with hc | hc <;> (rw [← hob] at hc; cases hc)
  · rename_i w hw
    split at hob
    · cases hob
    · rename_i lua1 itemsS qS heqS
      split at hob
      · cases hob
      · rename_i lua2 itemsD qD heqD
        obtain ⟨cw1, cw2, cw3, cw4, cw5, cw6⟩ :=
          consumeWinner_proj { s with
            localExec := s.localExec.filter (fun t => !(env.completed.contains t.taskId)) } w
        obtain ⟨hkS, hqS⟩ := drain_ok_spec heqS
        obtain ⟨hkD, hqD⟩ := drain_ok_spec heqD
        rw [cw1, cw2] at hkS
        rw [cw3] at hkD
        split at hob
        · rename_i hif
          injection hob with hob
          rw [← hob] at hcase
          rcases hcase with hc | hc
          · injection hc with hs2 htr
            subst hs2
            subst htr
            rw [← hob] at horig
            refine ⟨?_, ?_, ?_, ?_, ?_, ?_, ?_⟩
            · rw [hkS, hkD]
            · rw [hqS]
            · rw [hqD]
            · rfl
            · constructor
              · intro _
                exact List.isEmpty_iff.mp hif
              · intro _
                exact horig
            · rw [dispatchFutures_length, dispatchThreads_length, dispatchThreads_length, cw5]
              simp only [List.length_append]
              omega
            · exact ⟨_, _, _, rfl, dispatchThreads_kinds _ _ _ _,
                dispatchThreads_kinds _ _ _ _, dispatchFutures_kinds _ _ _⟩
          · cases hc
        · rename_i hif
          injection hob with hob
          rw [← hob] at hcase
          rcases hcase with hc | hc
          · cases hc
          · injection hc with hs2 htr
            subst hs2
            subst htr
            rw [← hob] at horig
            refine ⟨?_, ?_, ?_, ?_, ?_, ?_, ?_⟩
            · rw [hkS, hkD]
            · rw [hqS]
            · rw [hqD]
            · rfl
            · constructor
              · intro hx
                rw [horig] at hx
                injection hx with hx
                cases hx
              · intro hx
                exact absurd (List.isEmpty_iff.mpr hx) hif
            · rw [dispatchFutures_length, dispatchThreads_length, dispatchThreads_length, cw5]
              simp only [List.length_append]
              omega
            · exact ⟨_, _, _, rfl, dispatchThreads_kinds _ _ _ _,
                dispatchThreads_kinds _ _ _ _, dispatchFutures_kinds _ _ _⟩

/-- C1: a drain-and-dispatch cycle of the scheduler main loop exits if and
only if, at the end of the cycle (after the drains and the dispatching),
the local executor has no pending task — and at that point the spawn,
defer and futures queues are all empty as well. Whenever the cycle
dispatched anything (a drained coroutine task or an adopted local future,
necessarily not yet resumed), the executor is non-empty and the loop goes
round again rather than exiting. -/
theorem c1_exit_criterion (s : RunState) (env : TickEnv) (s2 : RunState)
    (tr : List Dispatch)
    (h : tickBody s env = .ok (.exitedLoop s2 tr) ∨
         tickBody s env = .ok (.continuedLoop s2 tr)) :
    ((tickBody s env = .ok (.exitedLoop s2 tr)) ↔
      (s2.localExec = [] ∧ s2.queueSpawn.queue = [] ∧ s2.queueDefer.queue = [] ∧
       s2.futQueue.queue = [])) ∧
    (tr ≠ [] → tickBody s env = .ok (.continuedLoop s2 tr) ∧ s2.localExec ≠ []) := by
  obtain ⟨-, hqs, hqd, hqf, hiff, hlen, -⟩ := tickBody_anatomy h
  constructor
  · constructor
    · intro hx
      exact ⟨hiff.mp hx, hqs, hqd, hqf⟩
    · intro hx
      exact hiff.mpr hx.1
  · intro htr
    have hne : s2.localExec ≠ [] := by
      intro hempty
      rw [hempty] at hlen
      simp only [List.length_nil] at hlen
      have h0 : tr.length = 0 := by omega
      exact htr (List.length_eq_zero.mp h0)
    rcases h with hx | hx
    · exact absurd (hiff.mp hx) hne
    · exact ⟨hx, hne⟩

/-- C1 witness: a tick woken by a stale spawn signal on an otherwise idle
scheduler drains nothing and exits with the executor and every queue
empty. -/
theorem c1_exit_criterion_witness :
    (tickBody stateStaleSignal { completed := [], progressed := false } =
       .ok (.exitedLoop (initialRunState luaEmpty) []) ∨
     tickBody stateStaleSignal { completed := [], progressed := false } =
       .ok (.continuedLoop (initialRunState luaEmpty) [])) ∧
    ((initialRunState luaEmpty).localExec = [] ∧
     (initialRunState luaEmpty).queueSpawn.queue = [] ∧
     (initialRunState luaEmpty).queueDefer.queue = [] ∧
     (initialRunState luaEmpty).futQueue.queue = []) :=
  ⟨Or.inl (by decide),
   (c1_exit_criterion stateStaleSignal { completed := [], progressed := false }
     (initialRunState luaEmpty) [] (Or.inl (by decide))).1.mp (by decide)⟩

/-- C2: in the dispatch trace of one tick, every item drained from the
spawn queue is dispatched before any item drained from the defer queue,
every defer item before any drained future, and hence every spawn item
before any future. -/
theorem c2_dispatch_priority (s : RunState) (env : TickEnv) (s2 : RunState)
    (tr : List Dispatch)
    (h : tickBody s env = .ok (.exitedLoop s2 tr) ∨
         tickBody s env = .ok (.continuedLoop s2 tr)) :
    ∀ i j (hi : i < tr.length) (hj : j < tr.length),
      ((tr.get ⟨i, hi⟩).kind = .spawnItem → (tr.get ⟨j, hj⟩).kind = .deferItem → i < j) ∧
      ((tr.get ⟨i, hi⟩).kind = .deferItem → (tr.get ⟨j, hj⟩).kind = .futureItem → i < j) ∧
      ((tr.get ⟨i, hi⟩).kind = .spawnItem → (tr.get ⟨j, hj⟩).kind = .futureItem → i < j) := by
  obtain ⟨-, -, -, -, -, -, trS, trD, trF, htr, hS, hD, hF⟩ := tickBody_anatomy h
  subst htr
  have hclass : ∀ m (hm : m < (trS ++ (trD ++ trF)).length),
      (((trS ++ (trD ++ trF)).get ⟨m, hm⟩).kind = .spawnItem ∧ m < trS.length) ∨
      (((trS ++ (trD ++ trF)).get ⟨m, hm⟩).kind = .deferItem ∧
        trS.length ≤ m ∧ m < trS.length + trD.length) ∨
      (((trS ++ (trD ++ trF)).get ⟨m, hm⟩).kind = .futureItem ∧
        trS.length + trD.length ≤ m) := by
    intro m hm
    rw [List.get_eq_getElem]
    by_cases h1 : m < trS.length
    · left
      rw [List.getElem_append_left h1]
      exact ⟨hS _ (List.getElem_mem h1), h1⟩
    · have h1' : trS.length ≤ m := Nat.le_of_not_lt h1
      rw [List.getElem_append_right h1']
      have hm2 : m - trS.length < (trD ++ trF).length := by
        simp only [List.length_append] at hm ⊢
        omega
      by_cases h2 : m - trS.length < trD.length
      · right
        left
        rw [List.getElem_append_left h2]
        exact ⟨hD _ (List.getElem_mem h2), h1', by omega⟩
      · right
        right
        have h2' : trD.length ≤ m - trS.length := Nat.le_of_not_lt h2
        rw [List.getElem_append_right h2']
        refine ⟨hF _ (List.getElem_mem ?_), by omega⟩
        simp only [List.length_append] at hm
        omega
  intro i j hi hj
  refine ⟨?_, ?_, ?_⟩
  · intro hki hkj
    rcases hclass i hi with ⟨-, hzi⟩ | ⟨hc, -⟩ | ⟨hc, -⟩
    · rcases hclass j hj with ⟨hc, -⟩ | ⟨-, hzj, -⟩ | ⟨hc, -⟩
      · rw [hkj] at hc; cases hc
      · omega
      · rw [hkj] at hc; cases hc
    · rw [hki] at hc; cases hc
    · rw [hki] at hc; cases hc
  · intro hki hkj
    rcases hclass i hi with ⟨hc, -⟩ | ⟨-, -, hzi⟩ | ⟨hc, -⟩
    · rw [hki] at hc; cases hc
    · rcases hclass j hj with ⟨hc, -⟩ | ⟨hc, -, -⟩ | ⟨-, hzj⟩
      · rw [hkj] at hc; cases hc
      · rw [hkj] at hc; cases hc
      · omega
    · rw [hki] at hc; cases hc
  · intro hki hkj
    rcases hclass i hi with ⟨-, hzi⟩ | ⟨hc, -⟩ | ⟨hc, -⟩
    · rcases hclass j hj with ⟨hc, -⟩ | ⟨hc, -, -⟩ | ⟨-, hzj⟩
      · rw [hkj] at hc; cases hc
      · rw [hkj] at hc; cases hc
      · omega
    · rw [hki] at hc; cases hc
    · rw [hki] at hc; cases hc

/-- C2 witness: a tick that drains one spawned item, one deferred item and
one future dispatches them at positions 0, 1, 2 of the trace — spawn
before defer before future. -/
theorem c2_dispatch_priority_witness :
    (tickBody stateBothQueues { completed := [], progressed := false } =
      .ok (.continuedLoop
        { lua := { registry := [], nextKey := 4, nextThreadId := 2, capacity := none },
          queueSpawn := { queue := [], signals := 0 },
          queueDefer := { queue := [], signals := 1 },
          futQueue := { queue := [], signals := 1 },
          localExec := [{ taskId := 0, kind := .luaTask thread0 [] },
                        { taskId := 1, kind := .luaTask thread1 [] },
                        { taskId := 2, kind := .localFut 7 }],
          nextTaskId := 3 }
        [{ kind := .spawnItem, taskId := 0 }, { kind := .deferItem, taskId := 1 },
         { kind := .futureItem, taskId := 2 }])) ∧
    (0 : Nat) < 1 ∧ (1 : Nat) < 2 := by
  have h := c2_dispatch_priority stateBothQueues { completed := [], progressed := false }
    { lua := { registry := [], nextKey := 4, nextThreadId := 2, capacity := none },
      queueSpawn := { queue := [], signals := 0 },
      queueDefer := { queue := [], signals := 1 },
      futQueue := { queue := [], signals := 1 },
      localExec := [{ taskId := 0, kind := .luaTask thread0 [] },
                    { taskId := 1, kind := .luaTask thread1 [] },
                    { taskId := 2, kind := .localFut 7 }],
      nextTaskId := 3 }
    [{ kind := .spawnItem, taskId := 0 }, { kind := .deferItem, taskId := 1 },
     { kind := .futureItem, taskId := 2 }]
    (Or.inr (by decide))
  exact ⟨by decide,
    (h 0 1 (by decide) (by decide)).1 (by decide) (by decide),
    (h 1 2 (by decide) (by decide)).2.1 (by decide) (by decide)⟩

lemma lookup_append_not_mem {r1 : Registry} {k : Nat} (h : ∀ p ∈ r1, p.1 ≠ k)
    (r2 : Registry) : lookupKey k (r1 ++ r2) = lookupKey k r2 := by
  induction r1 with
  | nil => rfl
  | cons p rest ih =>
    obtain ⟨k2, v2⟩ := p
    rw [List.cons_append, lookupKey,
      if_neg (h (k2, v2) (List.mem_cons_self _ _))]
    exact ih fun p hp => h p (List.mem_cons_of_mem _ hp)

lemma eraseKey_append_not_mem {r1 : Registry} {k : Nat} (h : ∀ p ∈ r1, p.1 ≠ k)
    (r2 : Registry) : eraseKey k (r1 ++ r2) = r1 ++ eraseKey k r2 := by
  induction r1 with
  | nil => rfl
  | cons p rest ih =>
    obtain ⟨k2, v2⟩ := p
    rw [List.cons_append, eraseKey,
      if_neg (h (k2, v2) (List.mem_cons_self _ _)), List.cons_append,
      ih fun p hp => h p (List.mem_cons_of_mem _ hp)]

lemma createRegistryValue_ok {lua : Lua} {v : RegVal} {lua1 : Lua} {k : Nat}
    (h : lua.createRegistryValue v = some (lua1, k)) :
    lua1.registry = lua.registry ++ [(lua.nextKey, v)] ∧ k = lua.nextKey ∧
    lua1.nextKey = lua.nextKey + 1 ∧ lua1.capacity = lua.capacity ∧
    lua1.nextThreadId = lua.nextThreadId := by
  rw [Lua.createRegistryValue] at h
  split at h
  · cases h
  · simp only [Option.some.injEq, Prod.mk.injEq] at h
    obtain ⟨h1, h2⟩ := h
    rw [← h1]
    exact ⟨rfl, h2.symm, rfl, rfl, rfl⟩

lemma threadWithArgs_new_ok {lua : Lua} {t : LuaThread} {args : LuaMultiValue}
    {lua2 : Lua} {twa : ThreadWithArgs}
    (h : ThreadWithArgs.new lua t args = .ok (lua2, twa)) :
    lua2.registry = lua.registry ++
      [(lua.nextKey, .threadVal t), (lua.nextKey + 1, .argsVal args)] ∧
    twa = { key_thread := lua.nextKey, key_args := lua.nextKey + 1 } ∧
    lua2.nextKey = lua.nextKey + 2 ∧ lua2.capacity = lua.capacity ∧
    lua2.nextThreadId = lua.nextThreadId := by
  rw [ThreadWithArgs.new] at h
  split at h
  · cases h
  · rename_i lua1 kThread heq1
    split at h
    · cases h
    · rename_i lua3 kArgs heq2
      simp only [PanicOr.ok.injEq, Prod.mk.injEq] at h
      obtain ⟨h1, h2⟩ := h
      obtain ⟨r1, rk1, rn1, rc1, rt1⟩ := createRegistryValue_ok heq1
      obtain ⟨r2, rk2, rn2, rc2, rt2⟩ := createRegistryValue_ok heq2
      subst h1
      refine ⟨?_, ?_, ?_, ?_, ?_⟩
      · rw [r2, r1, rn1, List.append_assoc]
        rfl
      · rw [← h2, rk1, rk2, rn1]
      · rw [rn2, rn1]
      · rw [rc2, rc1]
      · rw [rt2, rt1]

lemma push_ok_shape {q : ThreadQueue} {lua : Lua} {t : LuaThread} {args : LuaMultiValue}
    {lua1 : Lua} {q1 : ThreadQueue}
    (h : q.push lua (.ofThread t) args = .ok (.ok (lua1, q1))) :
    lua1.registry = lua.registry ++
      [(lua.nextKey, .threadVal t), (lua.nextKey + 1, .argsVal args)] ∧
    q1.queue = q.queue ++ [{ key_thread := lua.nextKey, key_args := lua.nextKey + 1 }] ∧
    q1.signals = q.signals + 1 ∧ lua1.nextKey = lua.nextKey + 2 := by
  rw [ThreadQueue.push] at h
  simp only [intoLuaThread] at h
  split at h
  · cases h
  · rename_i lua2 stored heq
    obtain ⟨r1, r2, r3, -, -⟩ := threadWithArgs_new_ok heq
    simp only [PanicOr.ok.injEq, Except.ok.injEq, Prod.mk.injEq] at h
    obtain ⟨h1, h2⟩ := h
    subst h1
    rw [← h2, ← r2]
    exact ⟨r1, rfl, rfl, r3⟩

lemma queueKeys_append (l1 l2 : List ThreadWithArgs) :
    queueKeys (l1 ++ l2) = queueKeys l1 ++ queueKeys l2 := by
  induction l1 with
  | nil => rfl
  | cons twa rest ih => simp [queueKeys, ih]

lemma multiset_cancel_helper {A B base r : Multiset Nat}
    (h1 : base + (A + B) = A + (B + r)) : r = base := by
  have h2 : (A + B) + base = (A + B) + r := by
    rw [add_comm (A + B) base, h1, ← add_assoc]
  exact (add_left_cancel h2).symm

lemma runLoop_completed_keys {base : Multiset Nat} {s : RunState} {ops : List RunOp}
    {s2 : RunState} (hInv : regKeys s.lua = base + schedKeys s)
    (h : runLoop s ops = .completedRun s2) : regKeys s2.lua = base := by
  induction ops generalizing s with
  | nil =>
    simp only [runLoop] at h
    cases h
  | cons op rest ih =>
    cases op with
    | pushSpawnOp t args =>
      simp only [runLoop] at h
      split at h
      · cases h
      · exact ih hInv h
      · rename_i lua1 q1 heq
        obtain ⟨r1, r2, -, -⟩ := push_ok_shape heq
        refine ih ?_ h
        have e1 : regKeys lua1 =
            regKeys s.lua + ([s.lua.nextKey, s.lua.nextKey + 1] : List Nat) := by
          rw [regKeys, r1, List.map_append, ← Multiset.coe_add]
          rfl
        have e2 : schedKeys { s with lua := lua1, queueSpawn := q1 } =
            schedKeys s + ([s.lua.nextKey, s.lua.nextKey + 1] : List Nat) := by
          rw [schedKeys, schedKeys]
          show ((queueKeys q1.queue : List Nat) : Multiset Nat) + _ = _
          rw [r2, queueKeys_append, ← Multiset.coe_add]
          exact add_right_comm _ _ _
        show regKeys lua1 = base + schedKeys { s with lua := lua1, queueSpawn := q1 }
        rw [e1, e2, hInv, add_assoc]
    | pushDeferOp t args =>
      simp only [runLoop] at h
      split at h
      · cases h
      · exact ih hInv h
      · rename_i lua1 q1 heq
        obtain ⟨r1, r2, -, -⟩ := push_ok_shape heq
        refine ih ?_ h
        have e1 : regKeys lua1 =
            regKeys s.lua + ([s.lua.nextKey, s.lua.nextKey + 1] : List Nat) := by
          rw [regKeys, r1, List.map_append, ← Multiset.coe_add]
          rfl
        have e2 : schedKeys { s with lua := lua1, queueDefer := q1 } =
            schedKeys s + ([s.lua.nextKey, s.lua.nextKey + 1] : List Nat) := by
          rw [schedKeys, schedKeys]
          show _ + ((queueKeys q1.queue : List Nat) : Multiset Nat) = _
          rw [r2, queueKeys_append, ← Multiset.coe_add]
          exact (add_assoc _ _ _).symm
        show regKeys lua1 = base + schedKeys { s with lua := lua1, queueDefer := q1 }
        rw [e1, e2, hInv, add_assoc]
    | pushFutOp fid =>
      simp only [runLoop] at h
      refine ih ?_ h
      exact hInv
    | tickOp env =>
      simp only [runLoop] at h
      split at h
      · cases h
      · exact ih hInv h
      · rename_i s1 tr heq
        obtain ⟨hkeys, hqs, hqd, -, -, -, -⟩ := tickBody_anatomy (Or.inr heq)
        have hbase : regKeys s1.lua = base :=
          multiset_cancel_helper (hInv.symm.trans hkeys)
        refine ih ?_ h
        show regKeys s1.lua = base + schedKeys s1
        rw [hbase, schedKeys, hqs, hqd]
        simp [queueKeys]
      · rename_i s1 tr heq
        cases h
        obtain ⟨hkeys, -, -, -, -, -, -⟩ := tickBody_anatomy (Or.inl heq)
        exact multiset_cancel_helper (hInv.symm.trans hkeys)

/-- C9: every registry key pair created by a push is consumed exactly once
on drain — materialising a freshly stored item returns the stored coroutine
and arguments and removes both keys, restoring the registry to what it was
before the push — and a run of the scheduler loop that returns Completed
leaves no scheduler-created key behind: the registry keys after the run are
exactly the initial ones. -/
theorem c9_registry_key_lifecycle :
    (∀ (lua lua2 : Lua) (t : LuaThread) (args : LuaMultiValue) (twa : ThreadWithArgs),
      KeysBounded lua →
      ThreadWithArgs.new lua t args = .ok (lua2, twa) →
      twa.intoInner lua2 = .ok ({ lua2 with registry := lua.registry }, t, args)) ∧
    (∀ (lua : Lua) (ops : List RunOp) (s2 : RunState),
      runLoop (initialRunState lua) ops = .completedRun s2 →
      regKeys s2.lua = regKeys lua) := by
  constructor
  · intro lua lua2 t args twa hb hnew
    obtain ⟨r1, r2, -, -, -⟩ := threadWithArgs_new_ok hnew
    subst r2
    have hne : ∀ p ∈ lua.registry, p.1 ≠ lua.nextKey :=
      fun p hp => Nat.ne_of_lt (hb p hp)
    have hne2 : ∀ p ∈ lua.registry, p.1 ≠ lua.nextKey + 1 :=
      fun p hp => Nat.ne_of_lt (Nat.lt_succ_of_lt (hb p hp))
    have hl1 : lookupKey lua.nextKey lua2.registry = some (.threadVal t) := by
      rw [r1, lookup_append_not_mem hne, lookupKey, if_pos rfl]
    have hl2 : lookupKey (lua.nextKey + 1) lua2.registry = some (.argsVal args) := by
      rw [r1, lookup_append_not_mem hne2, lookupKey,
        if_neg (Nat.ne_of_lt (Nat.lt_succ_self _)), lookupKey, if_pos rfl]
    have herase1 : eraseKey lua.nextKey lua2.registry =
        lua.registry ++ [(lua.nextKey + 1, .argsVal args)] := by
      rw [r1, eraseKey_append_not_mem hne, eraseKey, if_pos rfl]
    have hlook2 : lookupKey (lua.nextKey + 1)
        (lua.registry ++ [(lua.nextKey + 1, .argsVal args)]) = some (.argsVal args) := by
      rw [lookup_append_not_mem hne2, lookupKey, if_pos rfl]
    have herase2 : eraseKey (lua.nextKey + 1)
        (lua.registry ++ [(lua.nextKey + 1, .argsVal args)]) = lua.registry := by
      rw [eraseKey_append_not_mem hne2, eraseKey, if_pos rfl, List.append_nil]
    simp only [ThreadWithArgs.intoInner, Lua.registryValue, Lua.removeRegistryValue,
      hl1, hl2, herase1, hlook2, herase2]
  · intro lua ops s2 h
    refine runLoop_completed_keys ?_ h
    show regKeys (initialRunState lua).lua = regKeys lua + schedKeys (initialRunState lua)
    simp [initialRunState, schedKeys, ThreadQueue.new, queueKeys, regKeys]

/-- C9 witness: a push on the empty interpreter creates keys 0 and 1 and
materialising removes both; a one-coroutine run that completes leaves the
registry with exactly its initial (empty) key set. -/
theorem c9_registry_key_lifecycle_witness :
    KeysBounded luaEmpty ∧
    ThreadWithArgs.new luaEmpty thread0 [] =
      .ok ({ registry := [(0, .threadVal thread0), (1, .argsVal [])],
             nextKey := 2, nextThreadId := 0, capacity := none }, twaW) ∧
    twaW.intoInner
      { registry := [(0, .threadVal thread0), (1, .argsVal [])],
        nextKey := 2, nextThreadId := 0, capacity := none } =
      .ok ({ registry := [], nextKey := 2, nextThreadId := 0, capacity := none },
        thread0, []) ∧
    runLoop (initialRunState luaEmpty)
      [RunOp.pushSpawnOp thread0 [],
       RunOp.tickOp { completed := [], progressed := false },
       RunOp.tickOp { completed := [0], progressed := true }] =
      .completedRun
        { lua := { registry := [], nextKey := 2, nextThreadId := 0, capacity := none },
          queueSpawn := { queue := [], signals := 0 },
          queueDefer := { queue := [], signals := 0 },
          futQueue := { queue := [], signals := 0 },
          localExec := [], nextTaskId := 1 } ∧
    regKeys { registry := [], nextKey := 2, nextThreadId := 0, capacity := none } =
      regKeys luaEmpty := by
  refine ⟨?_, by decide, ?_, by decide, ?_⟩
  · intro p hp
    simp [luaEmpty] at hp
  · exact c9_registry_key_lifecycle.1 luaEmpty
      { registry := [(0, .threadVal thread0), (1, .argsVal [])],
        nextKey := 2, nextThreadId := 0, capacity := none }
      thread0 [] twaW (by intro p hp; simp [luaEmpty] at hp) (by decide)
  · exact c9_registry_key_lifecycle.2 luaEmpty
      [RunOp.pushSpawnOp thread0 [],
       RunOp.tickOp { completed := [], progressed := false },
       RunOp.tickOp { completed := [0], progressed := true }]
      { lua := { registry := [], nextKey := 2, nextThreadId := 0, capacity := none },
        queueSpawn := { queue := [], signals := 0 },
        queueDefer := { queue := [], signals := 0 },
        futQueue := { queue := [], signals := 0 },
        localExec := [], nextTaskId := 1 }
      (by decide)

lemma foldl_statusStep_loop (st : Status) (n : Nat) :
    List.foldl statusStep st (List.replicate n .loopIteration) = st := by
  induction n with
  | zero => rfl
  | succ n ih => rw [List.replicate_succ, List.foldl_cons]; exact ih

/-- C10: when `run` starts with both thread queues, the futures queue and
the local executor empty and nothing is ever enqueued, no arm of the
four-way race can become ready (a consistent environment cannot report
executor progress while the executor is empty), so every loop iteration
stays suspended before the drains and before the emptiness exit check,
`run` never returns, the state never changes, and the status stays
`Running` for any number of loop iterations. -/
theorem c10_empty_run_never_returns (lua : Lua) (ops : List RunOp)
    (hops : ∀ op ∈ ops, ∃ env : TickEnv,
      op = RunOp.tickOp env ∧ env.valid (initialRunState lua)) :
    runLoop (initialRunState lua) ops = .stillRunning (initialRunState lua) ∧
    (∀ env : TickEnv, env.valid (initialRunState lua) →
      tickBody (initialRunState lua) env = .ok .blocked) ∧
    (∀ n : Nat,
      List.foldl statusStep .notStarted
        (preLoopRunActions ++ List.replicate n .loopIteration) = .running) := by
  have hblocked : ∀ env : TickEnv, env.valid (initialRunState lua) →
      tickBody (initialRunState lua) env = .ok .blocked := by
    intro env hv
    have hprog : env.progressed = false := by
      cases hp : env.progressed with
      | false => rfl
      | true =>
        exact absurd rfl (hv.1 hp)
    simp [tickBody, raceWinner, initialRunState, ThreadQueue.new, FuturesQueue.new,
      ThreadQueue.listenReady, FuturesQueue.listenReady, hprog]
  refine ⟨?_, hblocked, ?_⟩
  · induction ops with
    | nil => rw [runLoop]
    | cons op rest ih =>
      obtain ⟨env, hop, hv⟩ := hops op (List.mem_cons_self _ _)
      subst hop
      simp only [runLoop, hblocked env hv]
      exact ih fun op2 h2 => hops op2 (List.mem_cons_of_mem _ h2)
  · intro n
    rw [List.foldl_append, foldl_statusStep_loop]
    rfl

/-- C10 witness: a single consistent loop iteration on the idle scheduler
leaves the run still suspended in the unchanged initial state. -/
theorem c10_empty_run_never_returns_witness :
    (∀ op ∈ [RunOp.tickOp { completed := [], progressed := false }],
      ∃ env : TickEnv, op = RunOp.tickOp env ∧ env.valid (initialRunState luaEmpty)) ∧
    runLoop (initialRunState luaEmpty)
      [RunOp.tickOp { completed := [], progressed := false }] =
      .stillRunning (initialRunState luaEmpty) := by
  have hops : ∀ op ∈ [RunOp.tickOp { completed := [], progressed := false }],
      ∃ env : TickEnv, op = RunOp.tickOp env ∧ env.valid (initialRunState luaEmpty) := by
    intro op hop
    rcases List.mem_singleton.mp hop with rfl
    refine ⟨_, rfl, ?_, ?_⟩
    · intro h
      cases h
    · intro h
      exact absurd rfl h
  exact ⟨hops, (c10_empty_run_never_returns luaEmpty _ hops).1⟩

lemma lookup_append_left {r1 : Registry} {k : Nat} {v : RegVal}
    (h : lookupKey k r1 = some v) (r2 : Registry) :
    lookupKey k (r1 ++ r2) = some v := by
  induction r1 with
  | nil => cases h
  | cons p rest ih =>
    obtain ⟨k2, v2⟩ := p
    rw [lookupKey] at h
    rw [List.cons_append, lookupKey]
    by_cases h2 : k2 = k
    · rw [if_pos h2]
      rw [if_pos h2] at h
      exact h
    · rw [if_neg h2]
      rw [if_neg h2] at h
      exact ih h

lemma lookup_eraseKey_ne {k k2 : Nat} (h : k ≠ k2) (r : Registry) :
    lookupKey k (eraseKey k2 r) = lookupKey k r := by
  induction r with
  | nil => rfl
  | cons p rest ih =>
    obtain ⟨k3, v3⟩ := p
    rw [eraseKey]
    by_cases h3 : k3 = k2
    · subst h3
      rw [if_pos rfl, lookupKey, if_neg fun hc => h hc.symm]
    · rw [if_neg h3, lookupKey, lookupKey]
      by_cases h4 : k3 = k
      · rw [if_pos h4, if_pos h4]
      · rw [if_neg h4, if_neg h4, ih]

lemma mem_queueKeys {twa : ThreadWithArgs} {q : List ThreadWithArgs} (h : twa ∈ q) :
    twa.key_thread ∈ queueKeys q ∧ twa.key_args ∈ queueKeys q := by
  induction q with
  | nil => cases h
  | cons t2 rest ih =>
    rw [queueKeys]
    rcases List.mem_cons.mp h with h1 | h1
    · subst h1
      constructor <;> simp
    · obtain ⟨a, b⟩ := ih h1
      constructor <;> simp [a, b]

lemma intoInner_of_lookups {twa : ThreadWithArgs} {lua : Lua} {t : LuaThread}
    {args : LuaMultiValue} (hne : twa.key_thread ≠ twa.key_args)
    (hl1 : lookupKey twa.key_thread lua.registry = some (.threadVal t))
    (hl2 : lookupKey twa.key_args lua.registry = some (.argsVal args)) :
    twa.intoInner lua = .ok
      ({ lua with
          registry := eraseKey twa.key_args (eraseKey twa.key_thread lua.registry) },
        t, args) := by
  have hl2e : lookupKey twa.key_args (eraseKey twa.key_thread lua.registry) =
      some (.argsVal args) := by
    rw [lookup_eraseKey_ne (Ne.symm hne), hl2]
  simp only [ThreadWithArgs.intoInner, Lua.registryValue, Lua.removeRegistryValue,
    hl1, hl2, hl2e]

lemma storedOk_push {lua : Lua} {q : ThreadQueue}
    {vals : List (LuaThread × LuaMultiValue)}
    (hs : StoredOk lua q.queue vals) (hb : KeysBounded lua)
    (hcap : lua.capacity = none) (t : LuaThread) (args : LuaMultiValue) :
    q.push lua (.ofThread t) args = .ok (.ok
      ({ lua with
          registry := lua.registry ++
            [(lua.nextKey, .threadVal t), (lua.nextKey + 1, .argsVal args)],
          nextKey := lua.nextKey + 2 },
       { queue := q.queue ++ [{ key_thread := lua.nextKey, key_args := lua.nextKey + 1 }],
         signals := q.signals + 1 })) ∧
    StoredOk
      { lua with
          registry := lua.registry ++
            [(lua.nextKey, .threadVal t), (lua.nextKey + 1, .argsVal args)],
          nextKey := lua.nextKey + 2 }
      (q.queue ++ [{ key_thread := lua.nextKey, key_args := lua.nextKey + 1 }])
      (vals ++ [(t, args)]) ∧
    KeysBounded
      { lua with
          registry := lua.registry ++
            [(lua.nextKey, .threadVal t), (lua.nextKey + 1, .argsVal args)],
          nextKey := lua.nextKey + 2 } := by
  have hne : ∀ p ∈ lua.registry, p.1 ≠ lua.nextKey :=
    fun p hp => Nat.ne_of_lt (hb p hp)
  have hne2 : ∀ p ∈ lua.registry, p.1 ≠ lua.nextKey + 1 :=
    fun p hp => Nat.ne_of_lt (Nat.lt_succ_of_lt (hb p hp))
  refine ⟨?_, ⟨?_, ?_, ?_, ?_⟩, ?_⟩
  · simp [ThreadQueue.push, intoLuaThread, ThreadWithArgs.new, Lua.createRegistryValue,
      Lua.atCapacity, hcap]
  · simp [hs.len]
  · rw [queueKeys_append]
    rw [List.nodup_append]
    refine ⟨hs.nodup, ?_, ?_⟩
    · simp [queueKeys]
    · intro a ha
      have := hs.below a ha
      simp only [queueKeys]
      intro hmem
      rcases List.mem_cons.mp hmem with h1 | h1
      · omega
      · rcases List.mem_cons.mp h1 with h2 | h2
        · omega
        · simp [queueKeys] at h2
  · intro k hk
    rw [queueKeys_append] at hk
    rcases List.mem_append.mp hk with h1 | h1
    · have := hs.below k h1
      show k < lua.nextKey + 2
      omega
    · simp only [queueKeys] at h1
      show k < lua.nextKey + 2
      rcases List.mem_cons.mp h1 with h2 | h2
      · omega
      · rcases List.mem_cons.mp h2 with h3 | h3
        · omega
        · simp [queueKeys] at h3
  · intro pr hpr
    rw [List.zip_append hs.len] at hpr
    rcases List.mem_append.mp hpr with h1 | h1
    · obtain ⟨e1, e2⟩ := hs.look pr h1
      constructor
      · show lookupKey pr.1.key_thread _ = _
        exact lookup_append_left e1 _
      · show lookupKey pr.1.key_args _ = _
        exact lookup_append_left e2 _
    · rw [List.zip_cons_cons, List.zip_nil_right] at h1
      rcases List.mem_singleton.mp h1 with rfl
      constructor
      · show lookupKey lua.nextKey _ = _
        rw [lookup_append_not_mem hne, lookupKey, if_pos rfl]
      · show lookupKey (lua.nextKey + 1) _ = _
        rw [lookup_append_not_mem hne2, lookupKey,
          if_neg (Nat.ne_of_lt (Nat.lt_succ_self _)), lookupKey, if_pos rfl]
  · intro p hp
    rcases List.mem_append.mp hp with h1 | h1
    · have hlt := hb p h1
      show p.1 < lua.nextKey + 2
      exact Nat.lt_succ_of_lt (Nat.lt_succ_of_lt hlt)
    · show p.1 < lua.nextKey + 2
      rcases List.mem_cons.mp h1 with h2 | h2
      · rw [h2]
        exact Nat.lt_succ_of_lt (Nat.lt_succ_self _)
      · rcases List.mem_cons.mp h2 with h3 | h3
        · rw [h3]
          exact Nat.lt_succ_self _
        · cases h3

lemma pushAllThreads_ok (lua : Lua) (q : ThreadQueue)
    (vals pairs : List (LuaThread × LuaMultiValue))
    (hs : StoredOk lua q.queue vals)
    (hcap : lua.capacity = none) (hb : KeysBounded lua) :
    ∃ lua1 q1,
      pushAllThreads lua q pairs = .ok (.ok (lua1, q1)) ∧
      StoredOk lua1 q1.queue (vals ++ pairs) ∧ KeysBounded lua1 ∧
      lua1.capacity = none ∧ q1.signals = q.signals + pairs.length := by
  revert hs hcap hb
  induction pairs generalizing lua q vals with
  | nil =>
    intro hs hcap hb
    refine ⟨lua, q, by rw [pushAllThreads], ?_, hb, hcap, by simp⟩
    rw [List.append_nil]
    exact hs
  | cons pr rest ih =>
    intro hs hcap hb
    obtain ⟨t, args⟩ := pr
    obtain ⟨hpush, hs1, hb1⟩ := storedOk_push hs hb hcap t args
    obtain ⟨lua1, q1, he, hs2, hb2, hc2, hsig⟩ := ih
      { lua with
          registry := lua.registry ++
            [(lua.nextKey, .threadVal t), (lua.nextKey + 1, .argsVal args)],
          nextKey := lua.nextKey + 2 }
      { queue := q.queue ++ [{ key_thread := lua.nextKey, key_args := lua.nextKey + 1 }],
        signals := q.signals + 1 }
      (vals ++ [(t, args)]) hs1 hcap hb1
    refine ⟨lua1, q1, ?_, ?_, hb2, hc2, ?_⟩
    · rw [pushAllThreads, hpush]
      exact he
    · rw [List.append_assoc] at hs2
      simpa using hs2
    · rw [hsig]
      simp only [List.length_cons]
      show q.signals + 1 + rest.length = q.signals + (rest.length + 1)
      omega

lemma drainAll_of_storedOk {lua : Lua} {q : List ThreadWithArgs}
    {vals : List (LuaThread × LuaMultiValue)}
    (hs : StoredOk lua q vals) :
    ∃ lua2, drainAll lua q = .ok (lua2, vals) := by
  induction q generalizing lua vals with
  | nil =>
    have hlen := hs.len
    rw [List.length_nil] at hlen
    have : vals = [] := (List.length_eq_zero.mp hlen.symm)
    subst this
    exact ⟨lua, by rw [drainAll]⟩
  | cons twa rest ih =>
    have hlen := hs.len
    cases vals with
    | nil =>
      rw [List.length_cons, List.length_nil] at hlen
      cases hlen
    | cons v vtail =>
      obtain ⟨t, args⟩ := v
      have hnodup := hs.nodup
      rw [queueKeys] at hnodup
      have hkt_notmem : twa.key_thread ∉ twa.key_args :: queueKeys rest :=
        (List.nodup_cons.mp hnodup).1
      have hnodup2 := (List.nodup_cons.mp hnodup).2
      have hka_notmem : twa.key_args ∉ queueKeys rest :=
        (List.nodup_cons.mp hnodup2).1
      have hne : twa.key_thread ≠ twa.key_args := by
        intro hc
        exact hkt_notmem (hc ▸ List.mem_cons_self _ _)
      obtain ⟨hl1, hl2⟩ := hs.look (twa, (t, args))
        (by rw [List.zip_cons_cons]; exact List.mem_cons_self _ _)
      have hii := intoInner_of_lookups hne hl1 hl2
      have hstail : StoredOk
          { lua with
              registry := eraseKey twa.key_args (eraseKey twa.key_thread lua.registry) }
          rest vtail := by
        refine ⟨?_, (List.nodup_cons.mp hnodup2).2, ?_, ?_⟩
        · rw [List.length_cons, List.length_cons] at hlen
          omega
        · intro k hk
          refine hs.below k ?_
          rw [queueKeys]
          exact List.mem_cons_of_mem _ (List.mem_cons_of_mem _ hk)
        · intro pr hpr
          have hmem : pr ∈ (twa :: rest).zip ((t, args) :: vtail) := by
            rw [List.zip_cons_cons]
            exact List.mem_cons_of_mem _ hpr
          obtain ⟨e1, e2⟩ := hs.look pr hmem
          have hpr1 : pr.1 ∈ rest := (List.of_mem_zip hpr).1
          obtain ⟨m1, m2⟩ := mem_queueKeys hpr1
          have d1 : pr.1.key_thread ≠ twa.key_thread := by
            intro hc
            exact hkt_notmem (hc ▸ List.mem_cons_of_mem _ m1)
          have d2 : pr.1.key_thread ≠ twa.key_args := by
            intro hc
            exact hka_notmem (hc ▸ m1)
          have d3 : pr.1.key_args ≠ twa.key_thread := by
            intro hc
            exact hkt_notmem (hc ▸ List.mem_cons_of_mem _ m2)
          have d4 : pr.1.key_args ≠ twa.key_args := by
            intro hc
            exact hka_notmem (hc ▸ m2)
          constructor
          · show lookupKey _ _ = _
            rw [lookup_eraseKey_ne d2, lookup_eraseKey_ne d1]
            exact e1
          · show lookupKey _ _ = _
            rw [lookup_eraseKey_ne d4, lookup_eraseKey_ne d3]
            exact e2
      obtain ⟨lua3, hd⟩ := ih hstail
      refine ⟨lua3, ?_⟩
      simp only [drainAll, hii, hd]

/-- C3: a drain yields exactly the currently queued items, materialised,
in FIFO order. From any coherently stored queue state holding `vals`,
pushing the items of `pairs` one after the other and then draining yields
`vals ++ pairs` — the already-queued items in order followed by the pushed
items in push order, leaving the container empty; in particular the item
pushed `i`-th is yielded `i`-th among the pushes, so of any two items
pushed on the same queue the one pushed first is yielded (hence resumed)
first. -/
theorem c3_drain_is_fifo :
    ∀ (lua : Lua) (q : ThreadQueue) (vals pairs : List (LuaThread × LuaMultiValue)),
      lua.capacity = none → KeysBounded lua → StoredOk lua q.queue vals →
      ∃ lua1 q1 lua2,
        pushAllThreads lua q pairs = .ok (.ok (lua1, q1)) ∧
        q1.drain lua1 = .ok (lua2, vals ++ pairs,
          { queue := [], signals := q.signals + pairs.length }) ∧
        (∀ i (hi : i < pairs.length),
          (vals ++ pairs).get
            ⟨vals.length + i, by rw [List.length_append]; omega⟩ =
          pairs.get ⟨i, hi⟩) := by
  intro lua q vals pairs hcap hb hs
  obtain ⟨lua1, q1, he, hs1, hb1, hc1, hsig⟩ := pushAllThreads_ok lua q vals pairs hs hcap hb
  obtain ⟨lua2, hd⟩ := drainAll_of_storedOk hs1
  refine ⟨lua1, q1, lua2, he, ?_, ?_⟩
  · rw [ThreadQueue.drain, hd, hsig]
  · intro i hi
    rw [List.get_eq_getElem, List.get_eq_getElem,
      List.getElem_append_right (Nat.le_add_right _ _)]
    simp

/-- C3 witness: pushing two coroutines onto an empty queue of an empty
interpreter and draining yields exactly those two items in push order. -/
theorem c3_drain_is_fifo_witness :
    luaEmpty.capacity = none ∧ KeysBounded luaEmpty ∧
    StoredOk luaEmpty ThreadQueue.new.queue [] ∧
    (∃ lua1 q1 lua2,
      pushAllThreads luaEmpty ThreadQueue.new [(thread0, []), (thread1, [])] =
        .ok (.ok (lua1, q1)) ∧
      q1.drain lua1 = .ok (lua2, [] ++ [(thread0, []), (thread1, [])],
        { queue := [], signals := ThreadQueue.new.signals + 2 }) ∧
      (∀ i (hi : i < [(thread0, ([] : LuaMultiValue)), (thread1, [])].length),
        (([] : List (LuaThread × LuaMultiValue)) ++
            [(thread0, []), (thread1, [])]).get
          ⟨([] : List (LuaThread × LuaMultiValue)).length + i,
            by rw [List.length_append]; omega⟩ =
        [(thread0, ([] : LuaMultiValue)), (thread1, [])].get ⟨i, hi⟩)) := by
  have hs : StoredOk luaEmpty ThreadQueue.new.queue [] := by
    refine ⟨rfl, ?_, ?_, ?_⟩
    · simp [ThreadQueue.new, queueKeys]
    · intro k hk
      simp [ThreadQueue.new, queueKeys] at hk
    · intro pr hpr
      simp [ThreadQueue.new] at hpr
  have hbnd : KeysBounded luaEmpty := by
    intro p hp
    simp [luaEmpty] at hp
  exact ⟨rfl, hbnd, hs,
    c3_drain_is_fifo luaEmpty ThreadQueue.new [] [(thread0, []), (thread1, [])]
      rfl hbnd hs⟩

end SmolMlua
